import Mathlib

/-!
# Shallow embedding of the `RollbackEngine` (GGPO-style rollback netcode)

This file embeds the rollback synchronization engine of the repository
(`RollbackEngine` and its helpers) into Lean 4 and proves properties about
it.  JavaScript `Map`s are modelled as association lists with
replace-on-set semantics (insertion order preserved, which matches `Map`),
JS objects used as input maps are also association lists, and the duck-typed
emulator is modelled as a state type `σ` together with a step function.
Every emulator invocation is recorded in a call log so that "the engine
invokes no simulator operation" is a provable statement.
-/

namespace Rollback

/-- Association-list lookup: first entry with the given key (JS `Map.get`). -/
def aget {α β : Type} [DecidableEq α] (m : List (α × β)) (k : α) : Option β :=
  match m with
  | [] => none
  | (k₀, v₀) :: rest => if k = k₀ then some v₀ else aget rest k

/-- Association-list store (JS `Map.set`): replace the value of an existing
key in place, otherwise append the new entry. -/
def aset {α β : Type} [DecidableEq α] (m : List (α × β)) (k : α) (v : β) :
    List (α × β) :=
  match m with
  | [] => [(k, v)]
  | (k₀, v₀) :: rest => if k = k₀ then (k₀, v) :: rest else (k₀, v₀) :: aset rest k v

/-- Keys of an association list. -/
def akeys {α β : Type} (m : List (α × β)) : List α := m.map Prod.fst

/-- Two-level lookup used for `confirmedInputs.get(f)?.get(pid)`. -/
def aget2 {α β γ : Type} [DecidableEq α] [DecidableEq β]
    (m : List (α × List (β × γ))) (k : α) (k2 : β) : Option γ :=
  match aget m k with
  | none => none
  | some inner => aget inner k2

/-- `INPUT_DELAY` — frames of artificial local-input delay (source value 2). -/
def INPUT_DELAY : Nat := 2

/-- `MAX_ROLLBACK` — maximum frames the engine will roll back (source value 8). -/
def MAX_ROLLBACK : Nat := 8

/-- One recorded invocation of an emulator-contract operation. -/
inductive SimCall : Type
  | save
  | load
  | step
  | render
deriving DecidableEq, Repr

/-- The `_stats` record of the engine. -/
structure Stats : Type where
  rollbacks : Nat
  maxRollbackDepth : Nat
  frame : Nat
  confirmedFrame : Int
deriving DecidableEq, Repr

/-- The mutable state of `RollbackEngine`, over an emulator state type `σ`.
`simStep` is the emulator's `step`; `saveState` returns the current `σ` and
`loadState` replaces it.  `log` records every emulator invocation. -/
structure Engine (σ : Type) : Type where
  localPlayerId : String
  playerIds : List String
  simStep : σ → List (String × Nat) → σ
  emu : σ
  frame : Nat
  confirmedFrame : Int
  confirmedInputs : List (Nat × List (String × Nat))
  usedInputs : List (Nat × List (String × Nat))
  stateHistory : List (Nat × σ)
  lastReceivedFrame : List (String × Int)
  rollbackTo : Option Nat
  running : Bool
  stats : Stats
  log : List SimCall

/-- The constructor of `RollbackEngine`: frame 0, confirmed frame −1, empty
history, per-peer receive watermark −1 for every non-local player. -/
def mkEngine {σ : Type} (localPlayerId : String) (playerIds : List String)
    (simStep : σ → List (String × Nat) → σ) (emu0 : σ) : Engine σ :=
  { localPlayerId := localPlayerId
    playerIds := playerIds
    simStep := simStep
    emu := emu0
    frame := 0
    confirmedFrame := -1
    confirmedInputs := []
    usedInputs := []
    stateHistory := []
    lastReceivedFrame :=
      (playerIds.filter (fun pid => pid ≠ localPlayerId)).map (fun pid => (pid, (-1 : Int)))
    rollbackTo := none
    running := false
    stats := { rollbacks := 0, maxRollbackDepth := 0, frame := 0, confirmedFrame := -1 }
    log := [] }

/-- `start()`: sets the running flag (the timing fields of the source are
wall-clock bookkeeping for the frame pacer and carry no simulation state). -/
def start {σ : Type} (s : Engine σ) : Engine σ := { s with running := true }

/-- `stop()`: clears the running flag. -/
def stop {σ : Type} (s : Engine σ) : Engine σ := { s with running := false }

/-- `_storeInput(frame, playerId, input)`: ensure a per-frame map exists in
`confirmedInputs`, then set the player's entry (overwriting unconditionally). -/
def storeInput {σ : Type} (s : Engine σ) (frame : Nat) (playerId : String)
    (input : Nat) : Engine σ :=
  let fm := (aget s.confirmedInputs frame).getD []
  { s with confirmedInputs := aset s.confirmedInputs frame (aset fm playerId input) }

/-- The backward search loop of `_predict`: walk `fuel` frames downward from
`f`, returning the first confirmed entry found for the player, else 0. -/
def predictLoop (ci : List (Nat × List (String × Nat))) (playerId : String) :
    Nat → Nat → Nat
  | _, 0 => 0
  | f, fuel + 1 =>
    match aget2 ci f playerId with
    | some v => v
    | none => predictLoop ci playerId (f - 1) fuel

/-- `_predict(playerId, forFrame)`: hold-last prediction.  The source loop
runs `f` from `forFrame − 1` down to `max(0, forFrame − MAX_ROLLBACK * 2)`;
with natural subtraction the lower bound is `forFrame - MAX_ROLLBACK * 2`
and the loop executes `forFrame - (forFrame - MAX_ROLLBACK * 2)` times. -/
def predict {σ : Type} (s : Engine σ) (playerId : String) (forFrame : Nat) : Nat :=
  predictLoop s.confirmedInputs playerId (forFrame - 1)
    (forFrame - (forFrame - MAX_ROLLBACK * 2))

/-- `_gatherInputs(frame)`: for each player in order, the confirmed value if
present, otherwise the prediction. -/
def gatherInputs {σ : Type} (s : Engine σ) (frame : Nat) : List (String × Nat) :=
  s.playerIds.map (fun pid =>
    (pid, match aget2 s.confirmedInputs frame pid with
          | some v => v
          | none => predict s pid frame))

/-- The `minFrame` computation of `_updateConfirmedFrame`: fold `min` over
the per-peer receive watermarks, starting from `frame + INPUT_DELAY`. -/
def peerMin {σ : Type} (s : Engine σ) : Int :=
  s.lastReceivedFrame.foldl (fun acc e => min acc e.2)
    ((s.frame : Int) + (INPUT_DELAY : Int))

/-- `_updateConfirmedFrame()`: raise the watermark to
`min(frame + INPUT_DELAY, min over per-peer receive watermarks)` if that
exceeds the current value. -/
def updateConfirmedFrame {σ : Type} (s : Engine σ) : Engine σ :=
  if peerMin s > s.confirmedFrame then { s with confirmedFrame := peerMin s } else s

/-- Modelled from the spec's phrase "minimum over remote peers of their
per-peer receive watermark": the minimum of a list of values, `none` when
there are no peers.  Used to compare the source's seeded fold against the
spec's formula. -/
def peersMin : List Int → Option Int
  | [] => none
  | v :: rest =>
    match peersMin rest with
    | none => some v
    | some m => some (min v m)

/-- The prune threshold `keepFrom = max(0, confirmedFrame − 1)` of
`_pruneHistory`. -/
def keepFrom {σ : Type} (s : Engine σ) : Int :=
  max 0 (s.confirmedFrame - 1)

/-- `_pruneHistory()`: iterate the keys of `stateHistory`; every key below
`max(0, confirmedFrame − 1)` is removed from all three history stores.
(Entries of `usedInputs`/`confirmedInputs` at frames absent from
`stateHistory` are not touched — exactly as in the source.) -/
def pruneHistory {σ : Type} (s : Engine σ) : Engine σ :=
  let victims := (s.stateHistory.filter (fun e => (e.1 : Int) < keepFrom s)).map Prod.fst
  { s with
    stateHistory := s.stateHistory.filter (fun e => ¬ (e.1 : Int) < keepFrom s)
    usedInputs := s.usedInputs.filter (fun e => ¬ e.1 ∈ victims)
    confirmedInputs := s.confirmedInputs.filter (fun e => ¬ e.1 ∈ victims) }

/-- The misprediction check of `receiveRemoteInput`: if the frame was
already simulated and the used input for this player differs from the
arriving one (in the source `used[playerId] !== input`, which is also true
when the map lacks the key), schedule a rollback to the earliest such frame
strictly above the confirmed-frame watermark. -/
def recvMispredict {σ : Type} (s : Engine σ) (frame : Nat) (playerId : String)
    (input : Nat) : Engine σ :=
  if frame < s.frame then
    match aget s.usedInputs frame with
    | none => s
    | some used =>
      let mispredicted : Bool :=
        match aget used playerId with
        | some v => v != input
        | none => true
      if mispredicted = true ∧ (frame : Int) > s.confirmedFrame then
        match s.rollbackTo with
        | none => { s with rollbackTo := some frame }
        | some r => if frame < r then { s with rollbackTo := some frame } else s
      else s
  else s

/-- The per-peer watermark update of `receiveRemoteInput`:
`last = lastReceivedFrame.get(playerId) ?? -1`, raised to `frame` when the
arriving frame is higher. -/
def recvWatermark {σ : Type} (s : Engine σ) (frame : Nat) (playerId : String) :
    Engine σ :=
  let last := (aget s.lastReceivedFrame playerId).getD (-1)
  if (frame : Int) > last then
    { s with lastReceivedFrame := aset s.lastReceivedFrame playerId (frame : Int) }
  else s

/-- `receiveRemoteInput(frame, playerId, input)`: ignore the local player;
otherwise run, in the source's order: misprediction check, input store,
per-peer watermark update, confirmed-frame recomputation. -/
def receiveRemoteInput {σ : Type} (s : Engine σ) (frame : Nat) (playerId : String)
    (input : Nat) : Engine σ :=
  if playerId = s.localPlayerId then s
  else
    updateConfirmedFrame
      (recvWatermark
        (storeInput (recvMispredict s frame playerId input) frame playerId input)
        frame playerId)

/-- One iteration of the re-simulation loop of `_performRollback` at frame
`f`: take a fresh snapshot (overwriting the stale one), rebuild the input
map, record it in `usedInputs` (overwriting), and step the emulator. -/
def rollbackIter {σ : Type} (s : Engine σ) (f : Nat) : Engine σ :=
  let s1 := { s with stateHistory := aset s.stateHistory f s.emu
                     log := s.log ++ [SimCall.save] }
  let inputs := gatherInputs s1 f
  { s1 with usedInputs := aset s1.usedInputs f inputs
            emu := s1.simStep s1.emu inputs
            log := s1.log ++ [SimCall.step] }

/-- The re-simulation loop of `_performRollback`: run `rollbackIter` on the
`n` consecutive frames starting at `f`. -/
def rollbackLoop {σ : Type} : Engine σ → Nat → Nat → Engine σ
  | s, _, 0 => s
  | s, f, n + 1 => rollbackLoop (rollbackIter s f) (f + 1) n

/-- `_performRollback(toFrame)`: load the snapshot for `toFrame`, re-simulate
every frame up to (excluding) the current frame, and update the rollback
statistics. -/
def performRollback {σ : Type} (s : Engine σ) (toFrame : Nat) : Engine σ :=
  let depth := s.frame - toFrame
  let s0 := { s with emu := (aget s.stateHistory toFrame).getD s.emu
                     log := s.log ++ [SimCall.load] }
  let s1 := rollbackLoop s0 toFrame (s.frame - toFrame)
  { s1 with stats := { s1.stats with
      rollbacks := s1.stats.rollbacks + 1
      maxRollbackDepth := max s1.stats.maxRollbackDepth depth } }

/-- Phase ② of `_tick`: consume a pending rollback target, performing the
rollback when the target is below the current frame and its snapshot is
still present. -/
def rollbackPhase {σ : Type} (s : Engine σ) : Engine σ :=
  match s.rollbackTo with
  | none => s
  | some rollTo =>
    let s1 := { s with rollbackTo := none }
    if rollTo < s1.frame ∧ (aget s1.stateHistory rollTo).isSome then
      performRollback s1 rollTo
    else s1

/-- Phase ③ of `_tick`: snapshot the emulator state before stepping the
current frame. -/
def snapshotPhase {σ : Type} (s : Engine σ) : Engine σ :=
  { s with stateHistory := aset s.stateHistory s.frame s.emu
           log := s.log ++ [SimCall.save] }

/-- Phase ④ of `_tick`: gather inputs (confirmed or predicted) for the
current frame, record them in `usedInputs` and step the emulator. -/
def simPhase {σ : Type} (s : Engine σ) : Engine σ :=
  let inputs := gatherInputs s s.frame
  { s with usedInputs := aset s.usedInputs s.frame inputs
           emu := s.simStep s.emu inputs
           log := s.log ++ [SimCall.step] }

/-- Phases ① – ④ of `_tick`: queue+broadcast the local input with delay,
consume a pending rollback, snapshot, then gather inputs and simulate. -/
def tickStep {σ : Type} (s : Engine σ) (localInput : Nat) : Engine σ :=
  simPhase (snapshotPhase (rollbackPhase
    (storeInput s (s.frame + INPUT_DELAY) s.localPlayerId localInput)))

/-- The stats publication of `_tick` step ⑤: copy the frame counters into
the stats record (the source also invokes the `onStats` callback, which
cannot mutate the engine). -/
def statsPublish {σ : Type} (s : Engine σ) : Engine σ :=
  { s with stats := { s.stats with
      frame := s.frame
      confirmedFrame := s.confirmedFrame } }

/-- The final frame advance of `_tick`. -/
def advanceFrame {σ : Type} (s : Engine σ) : Engine σ :=
  { s with frame := s.frame + 1 }

/-- Phase ⑤ of `_tick`: recompute the watermark, prune history, publish the
frame counters into the stats record and advance the frame. -/
def tickPost {σ : Type} (s : Engine σ) : Engine σ :=
  advanceFrame (statsPublish (pruneHistory (updateConfirmedFrame s)))

/-- `_tick()` with the local input supplied by the environment
(`readInput()` in the source). -/
def tick {σ : Type} (s : Engine σ) (localInput : Nat) : Engine σ :=
  tickPost (tickStep s localInput)

/-- The states the emulator passes through during a rollback re-simulation:
`resim s st f0 n` is the emulator state after loading `st` and stepping
frames `f0, f0+1, …, f0+n−1` with the input maps gathered from the
confirmed inputs of `s`. -/
def resim {σ : Type} (s : Engine σ) (st : σ) (f0 : Nat) : Nat → σ
  | 0 => st
  | n + 1 => s.simStep (resim s st f0 n) (gatherInputs s (f0 + n))

/-- One externally driven operation on the engine: a scheduler tick (with
the local input read for that tick) or an incoming remote input. -/
inductive Op : Type
  | tick (localInput : Nat)
  | recv (frame : Nat) (playerId : String) (input : Nat)

/-- Apply one operation. -/
def applyOp {σ : Type} (s : Engine σ) : Op → Engine σ
  | Op.tick li => tick s li
  | Op.recv f pid v => receiveRemoteInput s f pid v

/-- Apply a sequence of operations in order. -/
def applyOps {σ : Type} (s : Engine σ) (ops : List Op) : Engine σ :=
  ops.foldl applyOp s

/-- Structural invariant of the two simulation-history stores: used-input
entries only exist at frames that also have snapshots, every snapshot frame
is below the current frame, and neither store has duplicate frame keys. -/
def HistInv {σ : Type} (s : Engine σ) : Prop :=
  (∀ k, k ∈ akeys s.usedInputs → k ∈ akeys s.stateHistory) ∧
  (∀ k, k ∈ akeys s.stateHistory → k < s.frame) ∧
  (akeys s.usedInputs).Nodup ∧
  (akeys s.stateHistory).Nodup

/-- Invariant tying confirmed remote inputs to the per-peer receive
watermarks: every confirmed entry of a non-local player is covered by that
player's watermark, every watermark entry belongs to a non-local roster
player, and the watermark map has no duplicate keys. -/
def RosterInv {σ : Type} (s : Engine σ) : Prop :=
  (∀ e, e ∈ s.confirmedInputs → ∀ p2, p2 ∈ akeys e.2 → p2 ≠ s.localPlayerId →
    ∃ w, aget s.lastReceivedFrame p2 = some w ∧ (e.1 : Int) ≤ w) ∧
  (∀ e, e ∈ s.lastReceivedFrame → e.1 ∈ s.playerIds ∧ e.1 ≠ s.localPlayerId) ∧
  (akeys s.lastReceivedFrame).Nodup

/-- An operation list is roster-respecting when every remote-input delivery
names a player of the fixed match roster. -/
def RosterOps (playerIds : List String) : List Op → Prop
  | [] => True
  | Op.tick _ :: rest => RosterOps playerIds rest
  | Op.recv _ pid _ :: rest => pid ∈ playerIds ∧ RosterOps playerIds rest

/-- A concrete two-player engine (local "L", remote "R") over a counting
emulator, used to evaluate the definitions on closed inputs. -/
def e2 : Engine Nat := mkEngine "L" ["L", "R"] (fun st _ => st + 1) 0

/-- A concrete engine state (frame 2) holding a pending rollback target 0:
two silent ticks followed by a contradicting remote input for frame 0. -/
def ePend : Engine Nat := applyOps e2 [Op.tick 0, Op.tick 0, Op.recv 0 "R" 1]

/-- A concrete engine state at frame 2 in which both players' inputs for
frame 2 are already confirmed before the tick that steps frame 2. -/
def eFull : Engine Nat := applyOps e2 [Op.tick 3, Op.tick 4, Op.recv 2 "R" 7]

/-- The concrete input values confirmed for frame 2 in `eFull`. -/
def eFullVals : String → Nat := fun p => if p = "L" then 3 else 7

end Rollback

namespace Rollback

/-! ## Association-list lemmas -/

theorem aget_aset_self {α β : Type} [DecidableEq α] (m : List (α × β)) (k : α) (v : β) :
    aget (aset m k v) k = some v := by
  induction m with
  | nil => simp [aset, aget]
  | cons e rest ih =>
    by_cases h : k = e.1
    · simp [aset, aget, h]
    · simp [aset, aget, h, ih]

theorem aget_aset_ne {α β : Type} [DecidableEq α] (m : List (α × β)) (k k₂ : α) (v : β)
    (h : k₂ ≠ k) : aget (aset m k v) k₂ = aget m k₂ := by
  induction m with
  | nil => simp [aset, aget, h]
  | cons e rest ih =>
    by_cases h₀ : k = e.1
    · by_cases h₂ : k₂ = e.1
      · exact absurd (h₂.trans h₀.symm) h
      · simp [aset, aget, h₀, h₂]
    · by_cases h₂ : k₂ = e.1
      · simp [aset, aget, h₀, h₂]
      · simp [aset, aget, h₀, h₂, ih]

theorem aget_isSome_iff {α β : Type} [DecidableEq α] (m : List (α × β)) (k : α) :
    (aget m k).isSome ↔ k ∈ akeys m := by
  induction m with
  | nil => simp [aget, akeys]
  | cons e rest ih =>
    by_cases h : k = e.1
    · simp [aget, akeys, h]
    · simp [aget, akeys, h, ih]

theorem aget_eq_none_iff {α β : Type} [DecidableEq α] (m : List (α × β)) (k : α) :
    aget m k = none ↔ k ∉ akeys m := by
  rw [← aget_isSome_iff]
  cases aget m k <;> simp

theorem mem_akeys_cons {α β : Type} (e : α × β) (rest : List (α × β)) (k : α) :
    k ∈ akeys (e :: rest) ↔ k = e.1 ∨ k ∈ akeys rest := by
  simp [akeys]

theorem akeys_aset_mem {α β : Type} [DecidableEq α] (m : List (α × β)) (k : α) (v : β)
    (h : k ∈ akeys m) : akeys (aset m k v) = akeys m := by
  induction m with
  | nil => simp [akeys] at h
  | cons e rest ih =>
    by_cases h₀ : k = e.1
    · simp [aset, akeys, h₀]
    · rw [mem_akeys_cons] at h
      rcases h with h | h

      · exact absurd h h₀
      · show akeys (aset (e :: rest) k v) = akeys (e :: rest)
        simp only [aset, if_neg h₀]
        have hr := ih h
        simp only [akeys] at hr ⊢
        simp [hr]

theorem akeys_aset_not_mem {α β : Type} [DecidableEq α] (m : List (α × β)) (k : α) (v : β)
    (h : k ∉ akeys m) : akeys (aset m k v) = akeys m ++ [k] := by
  induction m with
  | nil => simp [aset, akeys]
  | cons e rest ih =>
    rw [mem_akeys_cons] at h
    push_neg at h
    simp only [aset, if_neg h.1]
    have hr := ih h.2
    simp only [akeys] at hr ⊢
    simp [hr]

theorem nodup_akeys_aset {α β : Type} [DecidableEq α] (m : List (α × β)) (k : α) (v : β)
    (h : (akeys m).Nodup) : (akeys (aset m k v)).Nodup := by
  by_cases hm : k ∈ akeys m
  · rw [akeys_aset_mem m k v hm]; exact h
  · rw [akeys_aset_not_mem m k v hm]
    simp [List.nodup_append, h, hm]

theorem mem_akeys_aset {α β : Type} [DecidableEq α] (m : List (α × β)) (k k₂ : α) (v : β)
    (h : k₂ ∈ akeys (aset m k v)) : k₂ ∈ akeys m ∨ k₂ = k := by
  by_cases hm : k ∈ akeys m
  · rw [akeys_aset_mem m k v hm] at h; exact Or.inl h
  · rw [akeys_aset_not_mem m k v hm] at h
    simpa using h

theorem length_aset {α β : Type} [DecidableEq α] (m : List (α × β)) (k : α) (v : β) :
    (aset m k v).length = if k ∈ akeys m then m.length else m.length + 1 := by
  by_cases hm : k ∈ akeys m
  · have := akeys_aset_mem m k v hm
    have h1 : (aset m k v).length = (akeys (aset m k v)).length := by simp [akeys]
    have h2 : m.length = (akeys m).length := by simp [akeys]
    simp [hm, h1, h2, this]
  · have := akeys_aset_not_mem m k v hm
    have h1 : (aset m k v).length = (akeys (aset m k v)).length := by simp [akeys]
    have h2 : m.length = (akeys m).length := by simp [akeys]
    simp [hm, h1, h2, this]

theorem aget_filter_of_key {α β : Type} [DecidableEq α] (m : List (α × β))
    (p : α × β → Bool) (k : α) (h : ∀ v, p (k, v) = true) :
    aget (m.filter p) k = aget m k := by
  induction m with
  | nil => simp
  | cons e rest ih =>
    by_cases hk : k = e.1
    · have : p e = true := by rw [show e = (k, e.2) by rw [hk]]; exact h e.2
      simp [List.filter_cons, this, aget, hk]
    · by_cases hp : p e = true
      · simp [List.filter_cons, hp, aget, hk, ih]
      · simp [List.filter_cons, hp, aget, hk, ih]

theorem aget_filter_of_not_key {α β : Type} [DecidableEq α] (m : List (α × β))
    (p : α × β → Bool) (k : α) (h : ∀ v, p (k, v) = false) :
    aget (m.filter p) k = none := by
  rw [aget_eq_none_iff]
  intro hmem
  simp only [akeys, List.mem_map] at hmem
  obtain ⟨e, hmem, hk⟩ := hmem
  have := List.of_mem_filter hmem
  rw [show e = (k, e.2) by rw [← hk]] at this
  rw [h e.2] at this
  exact Bool.noConfusion this

theorem akeys_filter_subset {α β : Type} (m : List (α × β)) (p : α × β → Bool) :
    akeys (m.filter p) ⊆ akeys m := by
  intro a ha
  simp only [akeys, List.mem_map] at ha ⊢
  obtain ⟨e, he, hk⟩ := ha
  exact ⟨e, List.mem_of_mem_filter he, hk⟩

theorem nodup_akeys_filter {α β : Type} (m : List (α × β)) (p : α × β → Bool)
    (h : (akeys m).Nodup) : (akeys (m.filter p)).Nodup := by
  simp only [akeys] at h ⊢
  exact (List.Sublist.map Prod.fst (List.filter_sublist m)).nodup h

end Rollback

namespace Rollback

/-! ## Field-preservation lemmas for the engine operations -/

section Preservation

variable {σ : Type}

@[simp] theorem storeInput_frame (s : Engine σ) (f : Nat) (p : String) (v : Nat) :
    (storeInput s f p v).frame = s.frame := rfl

@[simp] theorem storeInput_confirmedFrame (s : Engine σ) (f : Nat) (p : String) (v : Nat) :
    (storeInput s f p v).confirmedFrame = s.confirmedFrame := rfl

@[simp] theorem storeInput_usedInputs (s : Engine σ) (f : Nat) (p : String) (v : Nat) :
    (storeInput s f p v).usedInputs = s.usedInputs := rfl

@[simp] theorem storeInput_stateHistory (s : Engine σ) (f : Nat) (p : String) (v : Nat) :
    (storeInput s f p v).stateHistory = s.stateHistory := rfl

@[simp] theorem storeInput_lastReceivedFrame (s : Engine σ) (f : Nat) (p : String) (v : Nat) :
    (storeInput s f p v).lastReceivedFrame = s.lastReceivedFrame := rfl

@[simp] theorem storeInput_rollbackTo (s : Engine σ) (f : Nat) (p : String) (v : Nat) :
    (storeInput s f p v).rollbackTo = s.rollbackTo := rfl

@[simp] theorem storeInput_running (s : Engine σ) (f : Nat) (p : String) (v : Nat) :
    (storeInput s f p v).running = s.running := rfl

@[simp] theorem storeInput_stats (s : Engine σ) (f : Nat) (p : String) (v : Nat) :
    (storeInput s f p v).stats = s.stats := rfl

@[simp] theorem storeInput_log (s : Engine σ) (f : Nat) (p : String) (v : Nat) :
    (storeInput s f p v).log = s.log := rfl

@[simp] theorem storeInput_emu (s : Engine σ) (f : Nat) (p : String) (v : Nat) :
    (storeInput s f p v).emu = s.emu := rfl

@[simp] theorem storeInput_playerIds (s : Engine σ) (f : Nat) (p : String) (v : Nat) :
    (storeInput s f p v).playerIds = s.playerIds := rfl

@[simp] theorem storeInput_localPlayerId (s : Engine σ) (f : Nat) (p : String) (v : Nat) :
    (storeInput s f p v).localPlayerId = s.localPlayerId := rfl

@[simp] theorem storeInput_simStep (s : Engine σ) (f : Nat) (p : String) (v : Nat) :
    (storeInput s f p v).simStep = s.simStep := rfl

theorem storeInput_confirmedInputs (s : Engine σ) (f : Nat) (p : String) (v : Nat) :
    (storeInput s f p v).confirmedInputs =
      aset s.confirmedInputs f (aset ((aget s.confirmedInputs f).getD []) p v) := rfl

/-- The stored entry can be read back. -/
theorem storeInput_aget2_self (s : Engine σ) (f : Nat) (p : String) (v : Nat) :
    aget2 (storeInput s f p v).confirmedInputs f p = some v := by
  rw [storeInput_confirmedInputs]
  unfold aget2
  rw [aget_aset_self]
  exact aget_aset_self _ _ _

/-- Storing at one (frame, player) does not affect any other slot. -/
theorem storeInput_aget2_other (s : Engine σ) (f : Nat) (p : String) (v : Nat)
    (f₂ : Nat) (p₂ : String) (h : ¬(f₂ = f ∧ p₂ = p)) :
    aget2 (storeInput s f p v).confirmedInputs f₂ p₂ = aget2 s.confirmedInputs f₂ p₂ := by
  rw [storeInput_confirmedInputs]
  unfold aget2
  by_cases hf : f₂ = f
  · subst hf
    have hp : p₂ ≠ p := fun hp => h ⟨rfl, hp⟩
    rw [aget_aset_self]
    cases hm : aget s.confirmedInputs f₂ with
    | none => simp [hm, aget, hp]
    | some inner => simp [hm, aget_aset_ne _ _ _ _ hp]
  · rw [aget_aset_ne _ _ _ _ hf]

/-- Storing at a frame other than `f₂` leaves the whole map at `f₂` alone. -/
theorem storeInput_aget_other (s : Engine σ) (f : Nat) (p : String) (v : Nat)
    (f₂ : Nat) (h : f₂ ≠ f) :
    aget (storeInput s f p v).confirmedInputs f₂ = aget s.confirmedInputs f₂ := by
  rw [storeInput_confirmedInputs]
  exact aget_aset_ne _ _ _ _ h

@[simp] theorem recvMispredict_frame (s : Engine σ) (f : Nat) (p : String) (v : Nat) :
    (recvMispredict s f p v).frame = s.frame := by
  unfold recvMispredict; (try dsimp only); (repeat' split) <;> rfl

@[simp] theorem recvMispredict_confirmedFrame (s : Engine σ) (f : Nat) (p : String) (v : Nat) :
    (recvMispredict s f p v).confirmedFrame = s.confirmedFrame := by
  unfold recvMispredict; (try dsimp only); (repeat' split) <;> rfl

@[simp] theorem recvMispredict_confirmedInputs (s : Engine σ) (f : Nat) (p : String) (v : Nat) :
    (recvMispredict s f p v).confirmedInputs = s.confirmedInputs := by
  unfold recvMispredict; (try dsimp only); (repeat' split) <;> rfl

@[simp] theorem recvMispredict_usedInputs (s : Engine σ) (f : Nat) (p : String) (v : Nat) :
    (recvMispredict s f p v).usedInputs = s.usedInputs := by
  unfold recvMispredict; (try dsimp only); (repeat' split) <;> rfl

@[simp] theorem recvMispredict_stateHistory (s : Engine σ) (f : Nat) (p : String) (v : Nat) :
    (recvMispredict s f p v).stateHistory = s.stateHistory := by
  unfold recvMispredict; (try dsimp only); (repeat' split) <;> rfl

@[simp] theorem recvMispredict_lastReceivedFrame (s : Engine σ) (f : Nat) (p : String) (v : Nat) :
    (recvMispredict s f p v).lastReceivedFrame = s.lastReceivedFrame := by
  unfold recvMispredict; (try dsimp only); (repeat' split) <;> rfl

@[simp] theorem recvMispredict_running (s : Engine σ) (f : Nat) (p : String) (v : Nat) :
    (recvMispredict s f p v).running = s.running := by
  unfold recvMispredict; (try dsimp only); (repeat' split) <;> rfl

@[simp] theorem recvMispredict_stats (s : Engine σ) (f : Nat) (p : String) (v : Nat) :
    (recvMispredict s f p v).stats = s.stats := by
  unfold recvMispredict; (try dsimp only); (repeat' split) <;> rfl

@[simp] theorem recvMispredict_log (s : Engine σ) (f : Nat) (p : String) (v : Nat) :
    (recvMispredict s f p v).log = s.log := by
  unfold recvMispredict; (try dsimp only); (repeat' split) <;> rfl

@[simp] theorem recvMispredict_emu (s : Engine σ) (f : Nat) (p : String) (v : Nat) :
    (recvMispredict s f p v).emu = s.emu := by
  unfold recvMispredict; (try dsimp only); (repeat' split) <;> rfl

@[simp] theorem recvMispredict_playerIds (s : Engine σ) (f : Nat) (p : String) (v : Nat) :
    (recvMispredict s f p v).playerIds = s.playerIds := by
  unfold recvMispredict; (try dsimp only); (repeat' split) <;> rfl

@[simp] theorem recvMispredict_localPlayerId (s : Engine σ) (f : Nat) (p : String) (v : Nat) :
    (recvMispredict s f p v).localPlayerId = s.localPlayerId := by
  unfold recvMispredict; (try dsimp only); (repeat' split) <;> rfl

@[simp] theorem recvMispredict_simStep (s : Engine σ) (f : Nat) (p : String) (v : Nat) :
    (recvMispredict s f p v).simStep = s.simStep := by
  unfold recvMispredict; (try dsimp only); (repeat' split) <;> rfl

@[simp] theorem recvWatermark_frame (s : Engine σ) (f : Nat) (p : String) :
    (recvWatermark s f p).frame = s.frame := by
  unfold recvWatermark; (try dsimp only); (repeat' split) <;> rfl

@[simp] theorem recvWatermark_confirmedFrame (s : Engine σ) (f : Nat) (p : String) :
    (recvWatermark s f p).confirmedFrame = s.confirmedFrame := by
  unfold recvWatermark; (try dsimp only); (repeat' split) <;> rfl

@[simp] theorem recvWatermark_confirmedInputs (s : Engine σ) (f : Nat) (p : String) :
    (recvWatermark s f p).confirmedInputs = s.confirmedInputs := by
  unfold recvWatermark; (try dsimp only); (repeat' split) <;> rfl

@[simp] theorem recvWatermark_usedInputs (s : Engine σ) (f : Nat) (p : String) :
    (recvWatermark s f p).usedInputs = s.usedInputs := by
  unfold recvWatermark; (try dsimp only); (repeat' split) <;> rfl

@[simp] theorem recvWatermark_stateHistory (s : Engine σ) (f : Nat) (p : String) :
    (recvWatermark s f p).stateHistory = s.stateHistory := by
  unfold recvWatermark; (try dsimp only); (repeat' split) <;> rfl

@[simp] theorem recvWatermark_rollbackTo (s : Engine σ) (f : Nat) (p : String) :
    (recvWatermark s f p).rollbackTo = s.rollbackTo := by
  unfold recvWatermark; (try dsimp only); (repeat' split) <;> rfl

@[simp] theorem recvWatermark_running (s : Engine σ) (f : Nat) (p : String) :
    (recvWatermark s f p).running = s.running := by
  unfold recvWatermark; (try dsimp only); (repeat' split) <;> rfl

@[simp] theorem recvWatermark_stats (s : Engine σ) (f : Nat) (p : String) :
    (recvWatermark s f p).stats = s.stats := by
  unfold recvWatermark; (try dsimp only); (repeat' split) <;> rfl

@[simp] theorem recvWatermark_log (s : Engine σ) (f : Nat) (p : String) :
    (recvWatermark s f p).log = s.log := by
  unfold recvWatermark; (try dsimp only); (repeat' split) <;> rfl

@[simp] theorem recvWatermark_emu (s : Engine σ) (f : Nat) (p : String) :
    (recvWatermark s f p).emu = s.emu := by
  unfold recvWatermark; (try dsimp only); (repeat' split) <;> rfl

@[simp] theorem recvWatermark_playerIds (s : Engine σ) (f : Nat) (p : String) :
    (recvWatermark s f p).playerIds = s.playerIds := by
  unfold recvWatermark; (try dsimp only); (repeat' split) <;> rfl

@[simp] theorem recvWatermark_localPlayerId (s : Engine σ) (f : Nat) (p : String) :
    (recvWatermark s f p).localPlayerId = s.localPlayerId := by
  unfold recvWatermark; (try dsimp only); (repeat' split) <;> rfl

@[simp] theorem recvWatermark_simStep (s : Engine σ) (f : Nat) (p : String) :
    (recvWatermark s f p).simStep = s.simStep := by
  unfold recvWatermark; (try dsimp only); (repeat' split) <;> rfl

@[simp] theorem updateConfirmedFrame_frame (s : Engine σ) :
    (updateConfirmedFrame s).frame = s.frame := by
  unfold updateConfirmedFrame; (try dsimp only); (repeat' split) <;> rfl

/-- The recomputation of the watermark is exactly
`max(previous, min(frame + INPUT_DELAY, min over peer watermarks))`. -/
theorem updateConfirmedFrame_confirmedFrame (s : Engine σ) :
    (updateConfirmedFrame s).confirmedFrame = max s.confirmedFrame (peerMin s) := by
  unfold updateConfirmedFrame
  split
  · next h => simp [max_eq_right (le_of_lt h)]
  · next h => simp [max_eq_left (le_of_not_lt h)]

@[simp] theorem updateConfirmedFrame_confirmedInputs (s : Engine σ) :
    (updateConfirmedFrame s).confirmedInputs = s.confirmedInputs := by
  unfold updateConfirmedFrame; (try dsimp only); (repeat' split) <;> rfl

@[simp] theorem updateConfirmedFrame_usedInputs (s : Engine σ) :
    (updateConfirmedFrame s).usedInputs = s.usedInputs := by
  unfold updateConfirmedFrame; (try dsimp only); (repeat' split) <;> rfl

@[simp] theorem updateConfirmedFrame_stateHistory (s : Engine σ) :
    (updateConfirmedFrame s).stateHistory = s.stateHistory := by
  unfold updateConfirmedFrame; (try dsimp only); (repeat' split) <;> rfl

@[simp] theorem updateConfirmedFrame_lastReceivedFrame (s : Engine σ) :
    (updateConfirmedFrame s).lastReceivedFrame = s.lastReceivedFrame := by
  unfold updateConfirmedFrame; (try dsimp only); (repeat' split) <;> rfl

@[simp] theorem updateConfirmedFrame_rollbackTo (s : Engine σ) :
    (updateConfirmedFrame s).rollbackTo = s.rollbackTo := by
  unfold updateConfirmedFrame; (try dsimp only); (repeat' split) <;> rfl

@[simp] theorem updateConfirmedFrame_running (s : Engine σ) :
    (updateConfirmedFrame s).running = s.running := by
  unfold updateConfirmedFrame; (try dsimp only); (repeat' split) <;> rfl

@[simp] theorem updateConfirmedFrame_stats (s : Engine σ) :
    (updateConfirmedFrame s).stats = s.stats := by
  unfold updateConfirmedFrame; (try dsimp only); (repeat' split) <;> rfl

@[simp] theorem updateConfirmedFrame_log (s : Engine σ) :
    (updateConfirmedFrame s).log = s.log := by
  unfold updateConfirmedFrame; (try dsimp only); (repeat' split) <;> rfl

@[simp] theorem updateConfirmedFrame_emu (s : Engine σ) :
    (updateConfirmedFrame s).emu = s.emu := by
  unfold updateConfirmedFrame; (try dsimp only); (repeat' split) <;> rfl

@[simp] theorem updateConfirmedFrame_playerIds (s : Engine σ) :
    (updateConfirmedFrame s).playerIds = s.playerIds := by
  unfold updateConfirmedFrame; (try dsimp only); (repeat' split) <;> rfl

@[simp] theorem updateConfirmedFrame_localPlayerId (s : Engine σ) :
    (updateConfirmedFrame s).localPlayerId = s.localPlayerId := by
  unfold updateConfirmedFrame; (try dsimp only); (repeat' split) <;> rfl

@[simp] theorem updateConfirmedFrame_simStep (s : Engine σ) :
    (updateConfirmedFrame s).simStep = s.simStep := by
  unfold updateConfirmedFrame; (try dsimp only); (repeat' split) <;> rfl

@[simp] theorem pruneHistory_frame (s : Engine σ) :
    (pruneHistory s).frame = s.frame := rfl

@[simp] theorem pruneHistory_confirmedFrame (s : Engine σ) :
    (pruneHistory s).confirmedFrame = s.confirmedFrame := rfl

@[simp] theorem pruneHistory_lastReceivedFrame (s : Engine σ) :
    (pruneHistory s).lastReceivedFrame = s.lastReceivedFrame := rfl

@[simp] theorem pruneHistory_rollbackTo (s : Engine σ) :
    (pruneHistory s).rollbackTo = s.rollbackTo := rfl

@[simp] theorem pruneHistory_running (s : Engine σ) :
    (pruneHistory s).running = s.running := rfl

@[simp] theorem pruneHistory_stats (s : Engine σ) :
    (pruneHistory s).stats = s.stats := rfl

@[simp] theorem pruneHistory_log (s : Engine σ) :
    (pruneHistory s).log = s.log := rfl

@[simp] theorem pruneHistory_emu (s : Engine σ) :
    (pruneHistory s).emu = s.emu := rfl

@[simp] theorem pruneHistory_playerIds (s : Engine σ) :
    (pruneHistory s).playerIds = s.playerIds := rfl

@[simp] theorem pruneHistory_localPlayerId (s : Engine σ) :
    (pruneHistory s).localPlayerId = s.localPlayerId := rfl

@[simp] theorem pruneHistory_simStep (s : Engine σ) :
    (pruneHistory s).simStep = s.simStep := rfl

theorem pruneHistory_stateHistory (s : Engine σ) :
    (pruneHistory s).stateHistory =
      s.stateHistory.filter (fun e => ¬ (e.1 : Int) < keepFrom s) := rfl

@[simp] theorem snapshotPhase_frame (s : Engine σ) : (snapshotPhase s).frame = s.frame := rfl

@[simp] theorem snapshotPhase_confirmedFrame (s : Engine σ) :
    (snapshotPhase s).confirmedFrame = s.confirmedFrame := rfl

@[simp] theorem snapshotPhase_confirmedInputs (s : Engine σ) :
    (snapshotPhase s).confirmedInputs = s.confirmedInputs := rfl

@[simp] theorem snapshotPhase_usedInputs (s : Engine σ) :
    (snapshotPhase s).usedInputs = s.usedInputs := rfl

@[simp] theorem snapshotPhase_lastReceivedFrame (s : Engine σ) :
    (snapshotPhase s).lastReceivedFrame = s.lastReceivedFrame := rfl

@[simp] theorem snapshotPhase_rollbackTo (s : Engine σ) :
    (snapshotPhase s).rollbackTo = s.rollbackTo := rfl

@[simp] theorem snapshotPhase_stats (s : Engine σ) : (snapshotPhase s).stats = s.stats := rfl

@[simp] theorem snapshotPhase_emu (s : Engine σ) : (snapshotPhase s).emu = s.emu := rfl

@[simp] theorem snapshotPhase_playerIds (s : Engine σ) :
    (snapshotPhase s).playerIds = s.playerIds := rfl

@[simp] theorem snapshotPhase_localPlayerId (s : Engine σ) :
    (snapshotPhase s).localPlayerId = s.localPlayerId := rfl

@[simp] theorem snapshotPhase_simStep (s : Engine σ) :
    (snapshotPhase s).simStep = s.simStep := rfl

@[simp] theorem snapshotPhase_running (s : Engine σ) :
    (snapshotPhase s).running = s.running := rfl

theorem snapshotPhase_stateHistory (s : Engine σ) :
    (snapshotPhase s).stateHistory = aset s.stateHistory s.frame s.emu := rfl

@[simp] theorem simPhase_frame (s : Engine σ) : (simPhase s).frame = s.frame := rfl

@[simp] theorem simPhase_confirmedFrame (s : Engine σ) :
    (simPhase s).confirmedFrame = s.confirmedFrame := rfl

@[simp] theorem simPhase_confirmedInputs (s : Engine σ) :
    (simPhase s).confirmedInputs = s.confirmedInputs := rfl

@[simp] theorem simPhase_stateHistory (s : Engine σ) :
    (simPhase s).stateHistory = s.stateHistory := rfl

@[simp] theorem simPhase_lastReceivedFrame (s : Engine σ) :
    (simPhase s).lastReceivedFrame = s.lastReceivedFrame := rfl

@[simp] theorem simPhase_rollbackTo (s : Engine σ) :
    (simPhase s).rollbackTo = s.rollbackTo := rfl

@[simp] theorem simPhase_stats (s : Engine σ) : (simPhase s).stats = s.stats := rfl

@[simp] theorem simPhase_playerIds (s : Engine σ) :
    (simPhase s).playerIds = s.playerIds := rfl

@[simp] theorem simPhase_localPlayerId (s : Engine σ) :
    (simPhase s).localPlayerId = s.localPlayerId := rfl

@[simp] theorem simPhase_simStep (s : Engine σ) : (simPhase s).simStep = s.simStep := rfl

@[simp] theorem simPhase_running (s : Engine σ) : (simPhase s).running = s.running := rfl

theorem simPhase_usedInputs (s : Engine σ) :
    (simPhase s).usedInputs = aset s.usedInputs s.frame (gatherInputs s s.frame) := rfl

theorem simPhase_emu (s : Engine σ) :
    (simPhase s).emu = s.simStep s.emu (gatherInputs s s.frame) := rfl

@[simp] theorem statsPublish_frame (s : Engine σ) : (statsPublish s).frame = s.frame := rfl

@[simp] theorem statsPublish_confirmedFrame (s : Engine σ) :
    (statsPublish s).confirmedFrame = s.confirmedFrame := rfl

@[simp] theorem statsPublish_confirmedInputs (s : Engine σ) :
    (statsPublish s).confirmedInputs = s.confirmedInputs := rfl

@[simp] theorem statsPublish_usedInputs (s : Engine σ) :
    (statsPublish s).usedInputs = s.usedInputs := rfl

@[simp] theorem statsPublish_stateHistory (s : Engine σ) :
    (statsPublish s).stateHistory = s.stateHistory := rfl

@[simp] theorem statsPublish_lastReceivedFrame (s : Engine σ) :
    (statsPublish s).lastReceivedFrame = s.lastReceivedFrame := rfl

@[simp] theorem statsPublish_rollbackTo (s : Engine σ) :
    (statsPublish s).rollbackTo = s.rollbackTo := rfl

@[simp] theorem statsPublish_emu (s : Engine σ) : (statsPublish s).emu = s.emu := rfl

@[simp] theorem statsPublish_log (s : Engine σ) : (statsPublish s).log = s.log := rfl

@[simp] theorem statsPublish_playerIds (s : Engine σ) :
    (statsPublish s).playerIds = s.playerIds := rfl

@[simp] theorem statsPublish_localPlayerId (s : Engine σ) :
    (statsPublish s).localPlayerId = s.localPlayerId := rfl

@[simp] theorem statsPublish_simStep (s : Engine σ) :
    (statsPublish s).simStep = s.simStep := rfl

@[simp] theorem statsPublish_running (s : Engine σ) :
    (statsPublish s).running = s.running := rfl

theorem statsPublish_stats (s : Engine σ) :
    (statsPublish s).stats = { s.stats with frame := s.frame, confirmedFrame := s.confirmedFrame } := rfl

@[simp] theorem advanceFrame_frame (s : Engine σ) : (advanceFrame s).frame = s.frame + 1 := rfl

@[simp] theorem advanceFrame_confirmedFrame (s : Engine σ) :
    (advanceFrame s).confirmedFrame = s.confirmedFrame := rfl

@[simp] theorem advanceFrame_confirmedInputs (s : Engine σ) :
    (advanceFrame s).confirmedInputs = s.confirmedInputs := rfl

@[simp] theorem advanceFrame_usedInputs (s : Engine σ) :
    (advanceFrame s).usedInputs = s.usedInputs := rfl

@[simp] theorem advanceFrame_stateHistory (s : Engine σ) :
    (advanceFrame s).stateHistory = s.stateHistory := rfl

@[simp] theorem advanceFrame_lastReceivedFrame (s : Engine σ) :
    (advanceFrame s).lastReceivedFrame = s.lastReceivedFrame := rfl

@[simp] theorem advanceFrame_rollbackTo (s : Engine σ) :
    (advanceFrame s).rollbackTo = s.rollbackTo := rfl

@[simp] theorem advanceFrame_stats (s : Engine σ) : (advanceFrame s).stats = s.stats := rfl

@[simp] theorem advanceFrame_emu (s : Engine σ) : (advanceFrame s).emu = s.emu := rfl

@[simp] theorem advanceFrame_log (s : Engine σ) : (advanceFrame s).log = s.log := rfl

@[simp] theorem advanceFrame_playerIds (s : Engine σ) :
    (advanceFrame s).playerIds = s.playerIds := rfl

@[simp] theorem advanceFrame_localPlayerId (s : Engine σ) :
    (advanceFrame s).localPlayerId = s.localPlayerId := rfl

@[simp] theorem advanceFrame_simStep (s : Engine σ) :
    (advanceFrame s).simStep = s.simStep := rfl

@[simp] theorem advanceFrame_running (s : Engine σ) :
    (advanceFrame s).running = s.running := rfl

@[simp] theorem rollbackIter_frame (s : Engine σ) (f : Nat) :
    (rollbackIter s f).frame = s.frame := rfl

@[simp] theorem rollbackIter_confirmedFrame (s : Engine σ) (f : Nat) :
    (rollbackIter s f).confirmedFrame = s.confirmedFrame := rfl

@[simp] theorem rollbackIter_confirmedInputs (s : Engine σ) (f : Nat) :
    (rollbackIter s f).confirmedInputs = s.confirmedInputs := rfl

@[simp] theorem rollbackIter_lastReceivedFrame (s : Engine σ) (f : Nat) :
    (rollbackIter s f).lastReceivedFrame = s.lastReceivedFrame := rfl

@[simp] theorem rollbackIter_rollbackTo (s : Engine σ) (f : Nat) :
    (rollbackIter s f).rollbackTo = s.rollbackTo := rfl

@[simp] theorem rollbackIter_running (s : Engine σ) (f : Nat) :
    (rollbackIter s f).running = s.running := rfl

@[simp] theorem rollbackIter_stats (s : Engine σ) (f : Nat) :
    (rollbackIter s f).stats = s.stats := rfl

@[simp] theorem rollbackIter_playerIds (s : Engine σ) (f : Nat) :
    (rollbackIter s f).playerIds = s.playerIds := rfl

@[simp] theorem rollbackIter_localPlayerId (s : Engine σ) (f : Nat) :
    (rollbackIter s f).localPlayerId = s.localPlayerId := rfl

@[simp] theorem rollbackIter_simStep (s : Engine σ) (f : Nat) :
    (rollbackIter s f).simStep = s.simStep := rfl

theorem rollbackLoop_fields : ∀ (n : Nat) (s : Engine σ) (f : Nat),
    (rollbackLoop s f n).frame = s.frame ∧
    (rollbackLoop s f n).confirmedFrame = s.confirmedFrame ∧
    (rollbackLoop s f n).confirmedInputs = s.confirmedInputs ∧
    (rollbackLoop s f n).lastReceivedFrame = s.lastReceivedFrame ∧
    (rollbackLoop s f n).rollbackTo = s.rollbackTo ∧
    (rollbackLoop s f n).running = s.running ∧
    (rollbackLoop s f n).stats = s.stats ∧
    (rollbackLoop s f n).playerIds = s.playerIds ∧
    (rollbackLoop s f n).localPlayerId = s.localPlayerId ∧
    (rollbackLoop s f n).simStep = s.simStep := by
  intro n
  induction n with
  | zero => intro s f; exact ⟨rfl, rfl, rfl, rfl, rfl, rfl, rfl, rfl, rfl, rfl⟩
  | succ n ih =>
    intro s f
    simp only [rollbackLoop]
    exact ih _ _

@[simp] theorem rollbackLoop_frame (s : Engine σ) (f n : Nat) :
    (rollbackLoop s f n).frame = s.frame := (rollbackLoop_fields n s f).1

@[simp] theorem rollbackLoop_confirmedFrame (s : Engine σ) (f n : Nat) :
    (rollbackLoop s f n).confirmedFrame = s.confirmedFrame :=
  (rollbackLoop_fields n s f).2.1

@[simp] theorem rollbackLoop_confirmedInputs (s : Engine σ) (f n : Nat) :
    (rollbackLoop s f n).confirmedInputs = s.confirmedInputs :=
  (rollbackLoop_fields n s f).2.2.1

@[simp] theorem rollbackLoop_lastReceivedFrame (s : Engine σ) (f n : Nat) :
    (rollbackLoop s f n).lastReceivedFrame = s.lastReceivedFrame :=
  (rollbackLoop_fields n s f).2.2.2.1

@[simp] theorem rollbackLoop_rollbackTo (s : Engine σ) (f n : Nat) :
    (rollbackLoop s f n).rollbackTo = s.rollbackTo :=
  (rollbackLoop_fields n s f).2.2.2.2.1

@[simp] theorem rollbackLoop_running (s : Engine σ) (f n : Nat) :
    (rollbackLoop s f n).running = s.running :=
  (rollbackLoop_fields n s f).2.2.2.2.2.1

@[simp] theorem rollbackLoop_stats (s : Engine σ) (f n : Nat) :
    (rollbackLoop s f n).stats = s.stats :=
  (rollbackLoop_fields n s f).2.2.2.2.2.2.1

@[simp] theorem rollbackLoop_playerIds (s : Engine σ) (f n : Nat) :
    (rollbackLoop s f n).playerIds = s.playerIds :=
  (rollbackLoop_fields n s f).2.2.2.2.2.2.2.1

@[simp] theorem rollbackLoop_localPlayerId (s : Engine σ) (f n : Nat) :
    (rollbackLoop s f n).localPlayerId = s.localPlayerId :=
  (rollbackLoop_fields n s f).2.2.2.2.2.2.2.2.1

@[simp] theorem rollbackLoop_simStep (s : Engine σ) (f n : Nat) :
    (rollbackLoop s f n).simStep = s.simStep :=
  (rollbackLoop_fields n s f).2.2.2.2.2.2.2.2.2

@[simp] theorem performRollback_frame (s : Engine σ) (t : Nat) :
    (performRollback s t).frame = s.frame := by
  unfold performRollback; simp

@[simp] theorem performRollback_confirmedFrame (s : Engine σ) (t : Nat) :
    (performRollback s t).confirmedFrame = s.confirmedFrame := by
  unfold performRollback; simp

@[simp] theorem performRollback_confirmedInputs (s : Engine σ) (t : Nat) :
    (performRollback s t).confirmedInputs = s.confirmedInputs := by
  unfold performRollback; simp

@[simp] theorem performRollback_lastReceivedFrame (s : Engine σ) (t : Nat) :
    (performRollback s t).lastReceivedFrame = s.lastReceivedFrame := by
  unfold performRollback; simp

@[simp] theorem performRollback_rollbackTo (s : Engine σ) (t : Nat) :
    (performRollback s t).rollbackTo = s.rollbackTo := by
  unfold performRollback; simp

@[simp] theorem performRollback_running (s : Engine σ) (t : Nat) :
    (performRollback s t).running = s.running := by
  unfold performRollback; simp

@[simp] theorem performRollback_playerIds (s : Engine σ) (t : Nat) :
    (performRollback s t).playerIds = s.playerIds := by
  unfold performRollback; simp

@[simp] theorem performRollback_localPlayerId (s : Engine σ) (t : Nat) :
    (performRollback s t).localPlayerId = s.localPlayerId := by
  unfold performRollback; simp

@[simp] theorem performRollback_simStep (s : Engine σ) (t : Nat) :
    (performRollback s t).simStep = s.simStep := by
  unfold performRollback; simp

/-- `_performRollback` bumps the rollback counter and folds the depth into
the running maximum, leaving the stats frame counters alone. -/
theorem performRollback_stats (s : Engine σ) (t : Nat) :
    (performRollback s t).stats =
      { s.stats with rollbacks := s.stats.rollbacks + 1
                     maxRollbackDepth := max s.stats.maxRollbackDepth (s.frame - t) } := by
  unfold performRollback; simp

@[simp] theorem rollbackPhase_frame (s : Engine σ) : (rollbackPhase s).frame = s.frame := by
  unfold rollbackPhase; (try dsimp only); (repeat' split) <;> simp

@[simp] theorem rollbackPhase_confirmedFrame (s : Engine σ) :
    (rollbackPhase s).confirmedFrame = s.confirmedFrame := by
  unfold rollbackPhase; (try dsimp only); (repeat' split) <;> simp

@[simp] theorem rollbackPhase_confirmedInputs (s : Engine σ) :
    (rollbackPhase s).confirmedInputs = s.confirmedInputs := by
  unfold rollbackPhase; (try dsimp only); (repeat' split) <;> simp

@[simp] theorem rollbackPhase_lastReceivedFrame (s : Engine σ) :
    (rollbackPhase s).lastReceivedFrame = s.lastReceivedFrame := by
  unfold rollbackPhase; (try dsimp only); (repeat' split) <;> simp

/-- The rollback phase always consumes (clears) the pending target. -/
@[simp] theorem rollbackPhase_rollbackTo (s : Engine σ) :
    (rollbackPhase s).rollbackTo = none := by
  unfold rollbackPhase; (try dsimp only); (repeat' split) <;> simp_all

@[simp] theorem rollbackPhase_running (s : Engine σ) :
    (rollbackPhase s).running = s.running := by
  unfold rollbackPhase; (try dsimp only); (repeat' split) <;> simp

@[simp] theorem rollbackPhase_playerIds (s : Engine σ) :
    (rollbackPhase s).playerIds = s.playerIds := by
  unfold rollbackPhase; (try dsimp only); (repeat' split) <;> simp

@[simp] theorem rollbackPhase_localPlayerId (s : Engine σ) :
    (rollbackPhase s).localPlayerId = s.localPlayerId := by
  unfold rollbackPhase; (try dsimp only); (repeat' split) <;> simp

@[simp] theorem rollbackPhase_simStep (s : Engine σ) :
    (rollbackPhase s).simStep = s.simStep := by
  unfold rollbackPhase; (try dsimp only); (repeat' split) <;> simp

@[simp] theorem receiveRemoteInput_frame (s : Engine σ) (f : Nat) (p : String) (v : Nat) :
    (receiveRemoteInput s f p v).frame = s.frame := by
  unfold receiveRemoteInput; split <;> simp

@[simp] theorem receiveRemoteInput_usedInputs (s : Engine σ) (f : Nat) (p : String) (v : Nat) :
    (receiveRemoteInput s f p v).usedInputs = s.usedInputs := by
  unfold receiveRemoteInput; split <;> simp

@[simp] theorem receiveRemoteInput_stateHistory (s : Engine σ) (f : Nat) (p : String) (v : Nat) :
    (receiveRemoteInput s f p v).stateHistory = s.stateHistory := by
  unfold receiveRemoteInput; split <;> simp

@[simp] theorem receiveRemoteInput_emu (s : Engine σ) (f : Nat) (p : String) (v : Nat) :
    (receiveRemoteInput s f p v).emu = s.emu := by
  unfold receiveRemoteInput; split <;> simp

@[simp] theorem receiveRemoteInput_log (s : Engine σ) (f : Nat) (p : String) (v : Nat) :
    (receiveRemoteInput s f p v).log = s.log := by
  unfold receiveRemoteInput; split <;> simp

@[simp] theorem receiveRemoteInput_running (s : Engine σ) (f : Nat) (p : String) (v : Nat) :
    (receiveRemoteInput s f p v).running = s.running := by
  unfold receiveRemoteInput; split <;> simp

@[simp] theorem receiveRemoteInput_stats (s : Engine σ) (f : Nat) (p : String) (v : Nat) :
    (receiveRemoteInput s f p v).stats = s.stats := by
  unfold receiveRemoteInput; split <;> simp

@[simp] theorem receiveRemoteInput_playerIds (s : Engine σ) (f : Nat) (p : String) (v : Nat) :
    (receiveRemoteInput s f p v).playerIds = s.playerIds := by
  unfold receiveRemoteInput; split <;> simp

@[simp] theorem receiveRemoteInput_localPlayerId (s : Engine σ) (f : Nat) (p : String) (v : Nat) :
    (receiveRemoteInput s f p v).localPlayerId = s.localPlayerId := by
  unfold receiveRemoteInput; split <;> simp

@[simp] theorem receiveRemoteInput_simStep (s : Engine σ) (f : Nat) (p : String) (v : Nat) :
    (receiveRemoteInput s f p v).simStep = s.simStep := by
  unfold receiveRemoteInput; split <;> simp

end Preservation

end Rollback

namespace Rollback

/-! ## Characterization of the misprediction branch -/

section Mispredict

variable {σ : Type}

/-- When a remote input contradicts a recorded used input for an already
simulated frame, the pending target becomes the minimum of the arriving
frame and the previous target — but only above the watermark. -/
theorem recvMispredict_rollbackTo_eq (s : Engine σ) (frame : Nat) (playerId : String)
    (input : Nat) (used : List (String × Nat)) (v : Nat)
    (hframe : frame < s.frame)
    (hused : aget s.usedInputs frame = some used)
    (hval : aget used playerId = some v)
    (hdiff : v ≠ input) :
    (recvMispredict s frame playerId input).rollbackTo =
      if (frame : Int) > s.confirmedFrame then
        some (match s.rollbackTo with
              | none => frame
              | some r => min frame r)
      else s.rollbackTo := by
  unfold recvMispredict
  rw [if_pos hframe, hused]
  dsimp only
  rw [hval]
  by_cases hcf : (frame : Int) > s.confirmedFrame
  · rw [if_pos hcf, if_pos ⟨bne_iff_ne.mpr hdiff, hcf⟩]
    cases hrb : s.rollbackTo with
    | none => rfl
    | some r =>
      dsimp only
      by_cases hlt : frame < r
      · rw [if_pos hlt]
        simp [Nat.min_eq_left (Nat.le_of_lt hlt)]
      · rw [if_neg hlt, hrb]
        simp [Nat.min_eq_right (Nat.le_of_not_lt hlt)]
  · rw [if_neg hcf, if_neg (fun h => hcf h.2)]

end Mispredict

/-! ## Claim theorems and their witnesses -/

section Claims

variable {σ : Type}

/-- C1: a contradicting remote input for a non-local player at an already
simulated frame (an entry exists in the used inputs and differs) makes the
pending rollback target the minimum of the arriving frame and the
previously pending target (the frame itself when none was pending),
provided the frame is strictly above the confirmed-frame watermark; at or
below the watermark the pending target is unchanged. -/
theorem claim_C1_mispredict_schedules_min_target (s : Engine σ) (frame : Nat)
    (playerId : String) (input : Nat) (used : List (String × Nat)) (v : Nat)
    (hlocal : playerId ≠ s.localPlayerId)
    (hframe : frame < s.frame)
    (hused : aget s.usedInputs frame = some used)
    (hval : aget used playerId = some v)
    (hdiff : v ≠ input) :
    (receiveRemoteInput s frame playerId input).rollbackTo =
      if (frame : Int) > s.confirmedFrame then
        some (match s.rollbackTo with
              | none => frame
              | some r => min frame r)
      else s.rollbackTo := by
  unfold receiveRemoteInput
  rw [if_neg hlocal]
  simp only [updateConfirmedFrame_rollbackTo, recvWatermark_rollbackTo, storeInput_rollbackTo]
  exact recvMispredict_rollbackTo_eq s frame playerId input used v hframe hused hval hdiff

/-- C1 witness: in the concrete state `ePend` (pending target 0, frame 2,
watermark 0), a contradicting input for frame 1 becomes the new minimum
target min 1 0 = 0, and the hypotheses hold at this input. -/
theorem claim_C1_mispredict_schedules_min_target_witness :
    ("R" ≠ e2.localPlayerId ∧ (1 : Nat) < ePend.frame ∧
      aget ePend.usedInputs 1 = some [("L", 0), ("R", 0)] ∧
      aget [(("L" : String), (0 : Nat)), ("R", 0)] "R" = some 0 ∧ (0 : Nat) ≠ 9) ∧
    (receiveRemoteInput ePend 1 "R" 9).rollbackTo =
      if (1 : Int) > ePend.confirmedFrame then
        some (match ePend.rollbackTo with
              | none => 1
              | some r => min 1 r)
      else ePend.rollbackTo :=
  ⟨by decide,
   claim_C1_mispredict_schedules_min_target ePend 1 "R" 9 [("L", 0), ("R", 0)] 0
     (by decide) (by decide) (by decide) (by decide) (by decide)⟩

/-- C8 counterexample: once (frame 0, player "R") holds input 1, a later
delivery of the different input 2 for the same slot does not leave the
stored value unchanged — the engine silently overwrites it with 2. -/
theorem claim_C8_cex :
    aget2 (receiveRemoteInput (receiveRemoteInput e2 0 "R" 1) 0 "R" 2).confirmedInputs
        0 "R" = some 2 ∧ (2 : Nat) ≠ 1 := by
  constructor
  · rfl
  · decide

/-- C8 (amended): a later `receive_remote_input` for the same
(frame, player) with any value — identical or conflicting — silently
overwrites the stored confirmed input; there is no assert and no discard,
so confirmed entries can be retroactively changed. -/
theorem claim_C8_recv_overwrites (s : Engine σ) (f : Nat) (p : String) (v : Nat)
    (hp : p ≠ s.localPlayerId) :
    aget2 (receiveRemoteInput s f p v).confirmedInputs f p = some v := by
  unfold receiveRemoteInput
  rw [if_neg hp]
  simp only [updateConfirmedFrame_confirmedInputs, recvWatermark_confirmedInputs]
  exact storeInput_aget2_self _ f p v

/-- C8 witness: the overwrite theorem evaluated on the concrete engine. -/
theorem claim_C8_recv_overwrites_witness :
    aget2 (receiveRemoteInput (receiveRemoteInput e2 0 "R" 1) 0 "R" 2).confirmedInputs
        0 "R" = some 2 :=
  claim_C8_recv_overwrites (receiveRemoteInput e2 0 "R" 1) 0 "R" 2 (by decide)

/-- C9 counterexample: after one tick (frame 1), `stop()` then `start()`
leaves the frame counter at 1, not 0 — `start()` does not reset it. -/
theorem claim_C9_cex :
    (start (stop (tick e2 7))).frame = 1 ∧ (1 : Nat) ≠ 0 := by
  constructor
  · rfl
  · decide

/-- C9 (amended): `start()` only sets the running flag: it preserves the
frame counter and the confirmed-frame watermark (which are 0 and −1 only
because the constructor set them, so they are 0 and −1 after the first
`start()` of a fresh engine); `start()` after `stop()` merely resumes, and
repeated `start()` is idempotent. -/
theorem claim_C9_start_preserves_counters (s : Engine σ) (l : String)
    (ps : List String) (st : σ → List (String × Nat) → σ) (e0 : σ) :
    (start s).frame = s.frame ∧
    (start s).confirmedFrame = s.confirmedFrame ∧
    (start s).running = true ∧
    start (start s) = start s ∧
    start (stop s) = start s ∧
    (mkEngine l ps st e0).frame = 0 ∧
    (mkEngine l ps st e0).confirmedFrame = -1 ∧
    (start (mkEngine l ps st e0)).frame = 0 ∧
    (start (mkEngine l ps st e0)).confirmedFrame = -1 :=
  ⟨rfl, rfl, rfl, rfl, rfl, rfl, rfl, rfl, rfl⟩

/-- C10: `receive_remote_input` never changes the current frame, the used
inputs, the state history, the emulator state, the emulator call log (so it
invokes no step/save/load/render), the running flag, the stats, or the
engine configuration; and for the local player it changes nothing at all.
(The only fields it may change are `confirmedInputs`, `lastReceivedFrame`,
`confirmedFrame` and `rollbackTo`.) -/
theorem claim_C10_recv_frame_effects (s : Engine σ) (f : Nat) (p : String) (v : Nat) :
    (receiveRemoteInput s f p v).frame = s.frame ∧
    (receiveRemoteInput s f p v).usedInputs = s.usedInputs ∧
    (receiveRemoteInput s f p v).stateHistory = s.stateHistory ∧
    (receiveRemoteInput s f p v).emu = s.emu ∧
    (receiveRemoteInput s f p v).log = s.log ∧
    (receiveRemoteInput s f p v).running = s.running ∧
    (receiveRemoteInput s f p v).stats = s.stats ∧
    (receiveRemoteInput s f p v).playerIds = s.playerIds ∧
    (receiveRemoteInput s f p v).localPlayerId = s.localPlayerId ∧
    (receiveRemoteInput s f p v).simStep = s.simStep ∧
    (p = s.localPlayerId → receiveRemoteInput s f p v = s) := by
  refine ⟨by simp, by simp, by simp, by simp, by simp, by simp, by simp, by simp,
    by simp, by simp, fun h => ?_⟩
  unfold receiveRemoteInput
  rw [if_pos h]

/-- C10 witness: at a concrete non-local delivery the frame is unchanged,
and a delivery naming the local player is the identity. -/
theorem claim_C10_recv_frame_effects_witness :
    (receiveRemoteInput e2 0 "R" 5).frame = e2.frame ∧
    receiveRemoteInput e2 0 "L" 5 = e2 :=
  ⟨(claim_C10_recv_frame_effects e2 0 "R" 5).1,
   (claim_C10_recv_frame_effects e2 0 "L" 5).2.2.2.2.2.2.2.2.2.2 rfl⟩

end Claims

end Rollback

namespace Rollback

/-! ## The predictor: hold-last characterization (C5) -/

section Predictor

variable {σ : Type}

/-- If the player has a confirmed entry at `fb` and none at any frame in
`(fb, c]`, the backward search starting at `c` with enough fuel to reach
`fb` returns that entry. -/
theorem predictLoop_eq_of_found (ci : List (Nat × List (String × Nat)))
    (pid : String) (fb v : Nat) (hv : aget2 ci fb pid = some v) :
    ∀ (fuel c : Nat), fb ≤ c → c < fb + fuel →
      (∀ g, fb < g → g ≤ c → aget2 ci g pid = none) →
      predictLoop ci pid c fuel = v := by
  intro fuel
  induction fuel with
  | zero => intro c h1 h2 _; omega
  | succ fuel ih =>
    intro c h1 h2 hnone
    rcases Nat.eq_or_lt_of_le h1 with heq | hlt
    · subst heq
      simp [predictLoop, hv]
    · have hc : aget2 ci c pid = none := hnone c hlt (Nat.le_refl c)
      simp only [predictLoop, hc]
      exact ih (c - 1) (by omega) (by omega) (fun g hg1 hg2 => hnone g hg1 (by omega))

/-- If the player has no confirmed entry at any visited frame, the backward
search returns 0. -/
theorem predictLoop_eq_zero (ci : List (Nat × List (String × Nat))) (pid : String) :
    ∀ (fuel c : Nat),
      (∀ g, c + 1 - fuel ≤ g → g ≤ c → aget2 ci g pid = none) →
      predictLoop ci pid c fuel = 0 := by
  intro fuel
  induction fuel with
  | zero => intro c _; rfl
  | succ fuel ih =>
    intro c hnone
    have hc : aget2 ci c pid = none := hnone c (by omega) (Nat.le_refl c)
    simp only [predictLoop, hc]
    exact ih (c - 1) (fun g hg1 hg2 => hnone g (by omega) (by omega))

/-- C5: for any frame `f` and player `p` (in particular when the confirmed
input of `p` at `f` is absent and the predictor is consulted), `_predict`
returns the confirmed input of `p` at the greatest frame `f'` with
`max(0, f − 2·MAX_ROLLBACK) ≤ f' ≤ f − 1` for which a confirmed entry
exists — and returns 0 (all bits clear) when no entry for `p` exists in
that window. -/
theorem claim_C5_predict_hold_last (s : Engine σ) (p : String) (f : Nat) :
    (∀ fb v, f - MAX_ROLLBACK * 2 ≤ fb → fb < f →
      aget2 s.confirmedInputs fb p = some v →
      (∀ g, fb < g → g < f → aget2 s.confirmedInputs g p = none) →
      predict s p f = v) ∧
    ((∀ g, f - MAX_ROLLBACK * 2 ≤ g → g < f → aget2 s.confirmedInputs g p = none) →
      predict s p f = 0) := by
  have hmr : MAX_ROLLBACK * 2 = 16 := rfl
  constructor
  · intro fb v hlo hub hv hnone
    rw [hmr] at hlo
    unfold predict
    exact predictLoop_eq_of_found s.confirmedInputs p fb v hv _ (f - 1)
      (by omega) (by omega) (fun g hg1 hg2 => hnone g hg1 (by omega))
  · intro hnone
    rw [hmr] at hnone
    unfold predict
    exact predictLoop_eq_zero s.confirmedInputs p _ (f - 1)
      (fun g hg1 hg2 => hnone g (by omega) (by omega))

/-- C5 witness: in `eFull`, player "R" has its most recent confirmed entry
(input 7) at frame 2 inside the window of frame 4, so the predictor holds
it; a player with no entries at all predicts to 0. -/
theorem claim_C5_predict_hold_last_witness :
    predict eFull "R" 4 = 7 ∧ predict eFull "Q" 3 = 0 :=
  ⟨(claim_C5_predict_hold_last eFull "R" 4).1 2 7 (by decide) (by decide) (by decide)
      (by intro g h1 h2
          have hg : g = 3 := by omega
          subst hg
          decide),
   (claim_C5_predict_hold_last eFull "Q" 3).2
      (by intro g h1 h2
          have hg : g = 0 ∨ g = 1 ∨ g = 2 := by omega
          rcases hg with hg | hg | hg <;> subst hg <;> decide)⟩

end Predictor

end Rollback

namespace Rollback

/-! ## Rollback re-simulation characterization (C2) -/

section RollbackSpec

variable {σ : Type}

@[simp] theorem statsPublish_stats_rollbacks (s : Engine σ) :
    (statsPublish s).stats.rollbacks = s.stats.rollbacks := rfl

@[simp] theorem statsPublish_stats_maxRollbackDepth (s : Engine σ) :
    (statsPublish s).stats.maxRollbackDepth = s.stats.maxRollbackDepth := rfl

/-- The backward search only reads confirmed inputs at frames `≤ c`. -/
theorem predictLoop_congr (ci ci₂ : List (Nat × List (String × Nat))) (pid : String) :
    ∀ (fuel c : Nat), (∀ g, g ≤ c → aget2 ci g pid = aget2 ci₂ g pid) →
      predictLoop ci pid c fuel = predictLoop ci₂ pid c fuel := by
  intro fuel
  induction fuel with
  | zero => intro c _; rfl
  | succ fuel ih =>
    intro c h
    simp only [predictLoop, h c (Nat.le_refl c)]
    cases aget2 ci₂ c pid with
    | some v => rfl
    | none => exact ih (c - 1) (fun g hg => h g (by omega))

/-- Gathering depends only on the confirmed inputs and the roster. -/
theorem gatherInputs_congr (a b : Engine σ) (f : Nat)
    (hci : a.confirmedInputs = b.confirmedInputs) (hp : a.playerIds = b.playerIds) :
    gatherInputs a f = gatherInputs b f := by
  unfold gatherInputs predict
  rw [hci, hp]

/-- Gathering for frame `f` only reads confirmed inputs at frames `≤ f`,
so storing an input at a strictly higher frame does not change it. -/
theorem gatherInputs_storeInput_lt (s : Engine σ) (q : Nat) (pid : String) (v f : Nat)
    (h : f < q) : gatherInputs (storeInput s q pid v) f = gatherInputs s f := by
  unfold gatherInputs predict
  rw [storeInput_playerIds]
  refine List.map_congr_left (fun p _ => ?_)
  have hlow : ∀ g, g ≤ f → aget2 (storeInput s q pid v).confirmedInputs g p =
      aget2 s.confirmedInputs g p := by
    intro g hg
    unfold aget2
    rw [storeInput_aget_other s q pid v g (by omega)]
  rw [hlow f (Nat.le_refl f),
    predictLoop_congr _ s.confirmedInputs p _ (f - 1) (fun g hg => hlow g (by omega))]

/-- Peeling one step off the front of a re-simulation. -/
theorem resim_shift (base : Engine σ) (st : σ) (f0 : Nat) :
    ∀ n, resim base st f0 (n + 1) =
      resim base (base.simStep st (gatherInputs base f0)) (f0 + 1) n := by
  intro n
  induction n with
  | zero => rfl
  | succ n ih =>
    show base.simStep (resim base st f0 (n + 1)) (gatherInputs base (f0 + (n + 1))) = _
    rw [ih]
    show _ = base.simStep (resim base (base.simStep st (gatherInputs base f0)) (f0 + 1) n)
      (gatherInputs base (f0 + 1 + n))
    rw [show f0 + (n + 1) = f0 + 1 + n by omega]

/-- Re-simulation depends only on the step function and the gathered
inputs at the frames it touches. -/
theorem resim_congr (a b : Engine σ) (st : σ) (hstep : a.simStep = b.simStep) :
    ∀ (n f0 : Nat), (∀ g, f0 ≤ g → g < f0 + n → gatherInputs a g = gatherInputs b g) →
      resim a st f0 n = resim b st f0 n := by
  intro n
  induction n with
  | zero => intro f0 _; rfl
  | succ n ih =>
    intro f0 h
    show a.simStep (resim a st f0 n) (gatherInputs a (f0 + n)) = _
    rw [hstep, ih f0 (fun g hg1 hg2 => h g hg1 (by omega)),
      h (f0 + n) (by omega) (by omega)]
    rfl

/-- A snapshot or log update does not change what `_gatherInputs` sees. -/
theorem gatherInputs_update (s : Engine σ) (sh : List (Nat × σ)) (lg : List SimCall) (f : Nat) : gatherInputs { s with stateHistory := sh, log := lg } f = gatherInputs s f :=
  gatherInputs_congr _ s f rfl rfl

theorem rollbackIter_stateHistory (s : Engine σ) (f : Nat) :
    (rollbackIter s f).stateHistory = aset s.stateHistory f s.emu := rfl

theorem rollbackIter_usedInputs (s : Engine σ) (f : Nat) :
    (rollbackIter s f).usedInputs = aset s.usedInputs f (gatherInputs s f) := by
  unfold rollbackIter
  dsimp only
  rw [gatherInputs_update]

theorem rollbackIter_emu (s : Engine σ) (f : Nat) :
    (rollbackIter s f).emu = s.simStep s.emu (gatherInputs s f) := by
  unfold rollbackIter
  dsimp only
  rw [gatherInputs_update]

theorem rollbackIter_log (s : Engine σ) (f : Nat) :
    (rollbackIter s f).log = s.log ++ [SimCall.save, SimCall.step] := by
  unfold rollbackIter
  dsimp only
  simp

theorem rollbackLoop_aget_lt : ∀ (n : Nat) (s : Engine σ) (f0 g : Nat), g < f0 →
    aget (rollbackLoop s f0 n).usedInputs g = aget s.usedInputs g ∧
    aget (rollbackLoop s f0 n).stateHistory g = aget s.stateHistory g := by
  intro n
  induction n with
  | zero => intro s f0 g _; exact ⟨rfl, rfl⟩
  | succ n ih =>
    intro s f0 g hg
    simp only [rollbackLoop]
    constructor
    · rw [(ih (rollbackIter s f0) (f0 + 1) g (by omega)).1, rollbackIter_usedInputs]
      exact aget_aset_ne _ _ _ _ (by omega)
    · rw [(ih (rollbackIter s f0) (f0 + 1) g (by omega)).2, rollbackIter_stateHistory]
      exact aget_aset_ne _ _ _ _ (by omega)

/-- Full characterization of the re-simulation loop of `_performRollback`:
starting from a state agreeing with `base` on confirmed inputs, roster and
step function, it steps the emulator through `resim`, appends one
save+step pair to the log per frame, and rewrites `usedInputs` and
`stateHistory` at every frame of the window with the re-gathered inputs
and the re-simulated snapshots. -/
theorem rollbackLoop_spec (base : Engine σ) : ∀ (n : Nat) (s : Engine σ) (f0 : Nat),
    s.confirmedInputs = base.confirmedInputs →
    s.playerIds = base.playerIds →
    s.simStep = base.simStep →
    (rollbackLoop s f0 n).emu = resim base s.emu f0 n ∧
    (rollbackLoop s f0 n).log =
      s.log ++ (List.replicate n [SimCall.save, SimCall.step]).flatten ∧
    (∀ g, f0 ≤ g → g < f0 + n →
      aget (rollbackLoop s f0 n).usedInputs g = some (gatherInputs base g) ∧
      aget (rollbackLoop s f0 n).stateHistory g = some (resim base s.emu f0 (g - f0))) := by
  intro n
  induction n with
  | zero =>
    intro s f0 _ _ _
    exact ⟨rfl, by simp [rollbackLoop], fun g h1 h2 => absurd (Nat.lt_of_le_of_lt h1 h2) (by omega)⟩
  | succ n ih =>
    intro s f0 hci hp hstep
    simp only [rollbackLoop]
    obtain ⟨ihEmu, ihLog, ihMem⟩ := ih (rollbackIter s f0) (f0 + 1)
      (by rw [rollbackIter_confirmedInputs, hci]) (by rw [rollbackIter_playerIds, hp])
      (by rw [rollbackIter_simStep, hstep])
    have hemu : (rollbackIter s f0).emu = base.simStep s.emu (gatherInputs base f0) := by
      rw [rollbackIter_emu, hstep, gatherInputs_congr s base f0 hci hp]
    refine ⟨?_, ?_, ?_⟩
    · rw [ihEmu, hemu, ← resim_shift]
    · rw [ihLog, rollbackIter_log]
      simp [List.replicate_succ]
    · intro g h1 h2
      rcases Nat.eq_or_lt_of_le h1 with heq | hlt
      · subst heq
        have hlo := rollbackLoop_aget_lt n (rollbackIter s f0) (f0 + 1) f0 (by omega)
        constructor
        · rw [hlo.1, rollbackIter_usedInputs, aget_aset_self,
            gatherInputs_congr s base f0 hci hp]
        · rw [hlo.2, rollbackIter_stateHistory, aget_aset_self]
          simp [resim]
      · obtain ⟨hu, hs2⟩ := ihMem g hlt (by omega)
        refine ⟨hu, ?_⟩
        rw [hs2, hemu, ← resim_shift,
          show g - (f0 + 1) + 1 = g - f0 from by omega]

/-- `_performRollback` given a present snapshot: the emulator is reloaded
from the snapshot and re-stepped across the window, the log records one
load followed by a save+step pair per re-simulated frame, and every frame
of the window gets rebuilt used inputs and a fresh snapshot. -/
theorem performRollback_spec (s : Engine σ) (t : Nat) (snap : σ)
    (hsnap : aget s.stateHistory t = some snap) :
    (performRollback s t).emu = resim s snap t (s.frame - t) ∧
    (performRollback s t).log =
      s.log ++ SimCall.load :: (List.replicate (s.frame - t) [SimCall.save, SimCall.step]).flatten ∧
    (∀ g, t ≤ g → g < s.frame →
      aget (performRollback s t).usedInputs g = some (gatherInputs s g) ∧
      aget (performRollback s t).stateHistory g = some (resim s snap t (g - t))) := by
  unfold performRollback
  dsimp only
  rw [hsnap]
  simp only [Option.getD_some]
  obtain ⟨hEmu, hLog, hMem⟩ := rollbackLoop_spec s (s.frame - t)
    { s with emu := snap, log := s.log ++ [SimCall.load] } t rfl rfl rfl
  refine ⟨hEmu, ?_, ?_⟩
  · rw [hLog]
    simp
  · intro g h1 h2
    exact hMem g h1 (by omega)

end RollbackSpec

end Rollback

namespace Rollback

section ClaimC2

variable {σ : Type}

/-- C2: when a tick consumes a pending rollback target `t` with
`t < current-frame` and a snapshot present for `t`, the rollback counter of
the tick's result increases by exactly 1 and the max-depth statistic
becomes `max(previous, current-frame − t)`; and the rollback executed
inside the tick (on the post-queue state with the target cleared) loads the
snapshot for `t`, then for each frame `g ∈ [t, current-frame)` in ascending
order overwrites the snapshot at `g` with a fresh one (`resim … (g−t)`),
rebuilds the input map for `g` from the now-current confirmed inputs
(`gatherInputs`, which predicts only still-missing entries), overwrites
`usedInputs[g]` with it and steps the simulator (the call log shows one
load followed by a save+step pair per frame). -/
theorem claim_C2_rollback_execution (s : Engine σ) (li t : Nat) (snap : σ)
    (hpend : s.rollbackTo = some t)
    (ht : t < s.frame)
    (hsnap : aget s.stateHistory t = some snap) :
    rollbackPhase (storeInput s (s.frame + INPUT_DELAY) s.localPlayerId li) =
      performRollback { storeInput s (s.frame + INPUT_DELAY) s.localPlayerId li with rollbackTo := none } t ∧
    (tick s li).stats.rollbacks = s.stats.rollbacks + 1 ∧
    (tick s li).stats.maxRollbackDepth = max s.stats.maxRollbackDepth (s.frame - t) ∧
    (performRollback { storeInput s (s.frame + INPUT_DELAY) s.localPlayerId li with rollbackTo := none } t).emu = resim s snap t (s.frame - t) ∧
    (performRollback { storeInput s (s.frame + INPUT_DELAY) s.localPlayerId li with rollbackTo := none } t).log = s.log ++ SimCall.load :: (List.replicate (s.frame - t) [SimCall.save, SimCall.step]).flatten ∧
    (∀ g, t ≤ g → g < s.frame →
      aget (performRollback { storeInput s (s.frame + INPUT_DELAY) s.localPlayerId li with rollbackTo := none } t).usedInputs g = some (gatherInputs s g) ∧
      aget (performRollback { storeInput s (s.frame + INPUT_DELAY) s.localPlayerId li with rollbackTo := none } t).stateHistory g = some (resim s snap t (g - t))) := by
  set S : Engine σ := { storeInput s (s.frame + INPUT_DELAY) s.localPlayerId li with rollbackTo := none } with hS
  have hsnapS : aget S.stateHistory t = some snap := hsnap
  have hrbph : rollbackPhase (storeInput s (s.frame + INPUT_DELAY) s.localPlayerId li) =
      performRollback S t := by
    unfold rollbackPhase
    rw [storeInput_rollbackTo, hpend]
    dsimp only
    rw [if_pos]
    constructor
    · exact ht
    · show (aget s.stateHistory t).isSome = true
      rw [hsnap]
      rfl
  have hgg : ∀ g, g < s.frame + INPUT_DELAY → gatherInputs S g = gatherInputs s g := by
    intro g hg
    have e1 : gatherInputs S g =
        gatherInputs (storeInput s (s.frame + INPUT_DELAY) s.localPlayerId li) g :=
      gatherInputs_congr _ _ g rfl rfl
    rw [e1, gatherInputs_storeInput_lt s _ _ _ g hg]
  have hresim : ∀ n, t + n ≤ s.frame → resim S snap t n = resim s snap t n := by
    intro n hn
    exact resim_congr S s snap rfl n t (fun g hg1 hg2 => hgg g (by omega))
  obtain ⟨hEmu, hLog, hMem⟩ := performRollback_spec S t snap hsnapS
  have hstats : (tick s li).stats = { s.stats with
      rollbacks := s.stats.rollbacks + 1
      maxRollbackDepth := max s.stats.maxRollbackDepth (s.frame - t)
      frame := (tick s li).stats.frame
      confirmedFrame := (tick s li).stats.confirmedFrame } := by
    unfold tick tickStep tickPost
    rw [hrbph]
    simp only [advanceFrame_stats, statsPublish_stats, pruneHistory_stats,
      updateConfirmedFrame_stats, simPhase_stats, snapshotPhase_stats,
      performRollback_stats, advanceFrame_frame, statsPublish_frame, pruneHistory_frame,
      updateConfirmedFrame_frame, simPhase_frame, snapshotPhase_frame, performRollback_frame]
    rfl
  refine ⟨hrbph, ?_, ?_, ?_, ?_, ?_⟩
  · rw [hstats]
  · rw [hstats]
  · rw [hEmu]
    have hfr : S.frame - t = s.frame - t := rfl
    rw [hfr]
    exact hresim _ (by omega)
  · rw [hLog]
    rfl
  · intro g h1 h2
    obtain ⟨hu, hs2⟩ := hMem g h1 h2
    constructor
    · rw [hu, hgg g (by omega)]
    · rw [hs2, hresim (g - t) (by omega)]

end ClaimC2

end Rollback

namespace Rollback

/-! ## Watermark properties (C4) and the generic trace induction -/

section Watermark

variable {σ : Type}

/-- Generic induction principle over operation sequences. -/
theorem applyOps_induction (P : Engine σ → Prop)
    (htick : ∀ s li, P s → P (tick s li))
    (hrecv : ∀ s f p v, P s → P (receiveRemoteInput s f p v)) :
    ∀ (ops : List Op) (s : Engine σ), P s → P (applyOps s ops) := by
  intro ops
  induction ops with
  | nil => intro s h; exact h
  | cons op rest ih =>
    intro s h
    cases op with
    | tick li => exact ih _ (htick _ _ h)
    | recv f p v => exact ih _ (hrecv _ _ _ _ h)

theorem foldl_min_le (l : List Int) (a : Int) : l.foldl min a ≤ a := by
  induction l generalizing a with
  | nil => exact le_refl a
  | cons v rest ih => exact le_trans (ih (min a v)) (min_le_left a v)

theorem foldl_min_eq (l : List Int) (a : Int) :
    l.foldl min a =
      match peersMin l with
      | none => a
      | some m => min a m := by
  induction l generalizing a with
  | nil => rfl
  | cons v rest ih =>
    show rest.foldl min (min a v) = _
    rw [ih (min a v)]
    cases hm : peersMin rest with
    | none => simp [peersMin, hm]
    | some m => simp [peersMin, hm, min_assoc]

/-- The seeded fold of `_updateConfirmedFrame` is exactly
`min(frame + INPUT_DELAY, minimum over peers)` (with the minimum over an
empty peer set read as the cap itself). -/
theorem peerMin_eq_spec (s : Engine σ) :
    peerMin s =
      match peersMin (s.lastReceivedFrame.map Prod.snd) with
      | none => (s.frame : Int) + (INPUT_DELAY : Int)
      | some m => min ((s.frame : Int) + (INPUT_DELAY : Int)) m := by
  unfold peerMin
  rw [show (fun (acc : Int) (e : String × Int) => min acc e.2) =
      (fun (acc : Int) (e : String × Int) => min acc (Prod.snd e)) from rfl,
    ← List.foldl_map Prod.snd min, foldl_min_eq]

theorem peerMin_le (s : Engine σ) : peerMin s ≤ (s.frame : Int) + (INPUT_DELAY : Int) := by
  rw [peerMin_eq_spec]
  cases peersMin (s.lastReceivedFrame.map Prod.snd) with
  | none => exact le_refl _
  | some m => exact min_le_left _ _

@[simp] theorem tickStep_confirmedFrame (s : Engine σ) (li : Nat) :
    (tickStep s li).confirmedFrame = s.confirmedFrame := by
  unfold tickStep; simp

@[simp] theorem tickStep_frame (s : Engine σ) (li : Nat) :
    (tickStep s li).frame = s.frame := by
  unfold tickStep; simp

@[simp] theorem tick_frame (s : Engine σ) (li : Nat) : (tick s li).frame = s.frame + 1 := by
  unfold tick tickPost; simp

theorem tick_confirmedFrame (s : Engine σ) (li : Nat) :
    (tick s li).confirmedFrame =
      max s.confirmedFrame (peerMin (tickStep s li)) := by
  unfold tick tickPost
  simp only [advanceFrame_confirmedFrame, statsPublish_confirmedFrame,
    pruneHistory_confirmedFrame, updateConfirmedFrame_confirmedFrame,
    tickStep_confirmedFrame]

theorem recv_confirmedFrame (s : Engine σ) (f : Nat) (p : String) (v : Nat)
    (hp : p ≠ s.localPlayerId) :
    (receiveRemoteInput s f p v).confirmedFrame =
      max s.confirmedFrame
        (peerMin (recvWatermark (storeInput (recvMispredict s f p v) f p v) f p)) := by
  unfold receiveRemoteInput
  rw [if_neg hp]
  simp only [updateConfirmedFrame_confirmedFrame, recvWatermark_confirmedFrame,
    storeInput_confirmedFrame, recvMispredict_confirmedFrame]

theorem confirmedFrame_mono_tick (s : Engine σ) (li : Nat) :
    s.confirmedFrame ≤ (tick s li).confirmedFrame := by
  rw [tick_confirmedFrame]
  exact le_max_left _ _

theorem confirmedFrame_mono_recv (s : Engine σ) (f : Nat) (p : String) (v : Nat) :
    s.confirmedFrame ≤ (receiveRemoteInput s f p v).confirmedFrame := by
  by_cases hp : p = s.localPlayerId
  · unfold receiveRemoteInput
    rw [if_pos hp]
  · rw [recv_confirmedFrame s f p v hp]
    exact le_max_left _ _

/-- The watermark never decreases across any operation sequence. -/
theorem confirmedFrame_mono_applyOps (ops : List Op) (s : Engine σ) :
    s.confirmedFrame ≤ (applyOps s ops).confirmedFrame := by
  induction ops generalizing s with
  | nil => exact le_refl _
  | cons op rest ih =>
    cases op with
    | tick li => exact le_trans (confirmedFrame_mono_tick s li) (ih _)
    | recv f p v => exact le_trans (confirmedFrame_mono_recv s f p v) (ih _)

/-- The watermark never exceeds `frame + INPUT_DELAY`, preserved by every
operation. -/
theorem confirmedFrame_le_cap (ops : List Op) {σ : Type} (l : String)
    (ps : List String) (st : σ → List (String × Nat) → σ) (e0 : σ) :
    (applyOps (mkEngine l ps st e0) ops).confirmedFrame ≤
      ((applyOps (mkEngine l ps st e0) ops).frame : Int) + (INPUT_DELAY : Int) := by
  refine applyOps_induction
    (fun s => s.confirmedFrame ≤ (s.frame : Int) + (INPUT_DELAY : Int)) ?_ ?_ ops _ ?_
  · intro s li h
    rw [tick_confirmedFrame, tick_frame]
    have h1 : peerMin (tickStep s li) ≤ ((tickStep s li).frame : Int) + (INPUT_DELAY : Int) :=
      peerMin_le _
    rw [tickStep_frame] at h1
    have : ((s.frame : Int) + 1) + (INPUT_DELAY : Int) = ((s.frame + 1 : Nat) : Int) + (INPUT_DELAY : Int) := by
      push_cast; ring
    rw [← this]
    refine max_le (le_trans h (by omega)) (le_trans h1 (by omega))
  · intro s f p v h
    by_cases hp : p = s.localPlayerId
    · unfold receiveRemoteInput
      rw [if_pos hp]
      exact h
    · rw [recv_confirmedFrame s f p v hp, receiveRemoteInput_frame]
      have h1 := peerMin_le (recvWatermark (storeInput (recvMispredict s f p v) f p v) f p)
      simp only [recvWatermark_frame, storeInput_frame, recvMispredict_frame] at h1
      exact max_le h h1
  · show (-1 : Int) ≤ ((0 : Nat) : Int) + (INPUT_DELAY : Int)
    decide

end Watermark

end Rollback

namespace Rollback

section ClaimsWatermark

variable {σ : Type}

/-- C2 witness: in the concrete state `ePend` (pending target 0, frame 2,
snapshot for 0 present), the tick's rollback counter goes up by one. -/
theorem claim_C2_rollback_execution_witness :
    (ePend.rollbackTo = some 0 ∧ 0 < ePend.frame ∧
      aget ePend.stateHistory 0 = some (0 : Nat)) ∧
    (tick ePend 0).stats.rollbacks = ePend.stats.rollbacks + 1 :=
  ⟨⟨by decide, by decide, by decide⟩,
   (claim_C2_rollback_execution ePend 0 0 0 (by decide) (by decide) (by decide)).2.1⟩

/-- C4: across any sequence of tick and receive_remote_input calls starting
from a freshly constructed engine, the confirmed-frame watermark satisfies
`watermark ≤ current-frame + INPUT_DELAY`; it never decreases over any
further operation sequence from any state; and each recomputation sets it
to `max(previous, min(current-frame + INPUT_DELAY, minimum over remote
peers of their receive watermark))` (the minimum over an empty peer set
reading as the cap itself). -/
theorem claim_C4_watermark_props (l : String) (ps : List String)
    (st : σ → List (String × Nat) → σ) (e0 : σ) (ops ops2 : List Op) (s : Engine σ) :
    (applyOps (mkEngine l ps st e0) ops).confirmedFrame ≤
      ((applyOps (mkEngine l ps st e0) ops).frame : Int) + (INPUT_DELAY : Int) ∧
    s.confirmedFrame ≤ (applyOps s ops2).confirmedFrame ∧
    (updateConfirmedFrame s).confirmedFrame =
      max s.confirmedFrame
        (match peersMin (s.lastReceivedFrame.map Prod.snd) with
         | none => (s.frame : Int) + (INPUT_DELAY : Int)
         | some m => min ((s.frame : Int) + (INPUT_DELAY : Int)) m) :=
  ⟨confirmedFrame_le_cap ops l ps st e0,
   confirmedFrame_mono_applyOps ops2 s,
   by rw [updateConfirmedFrame_confirmedFrame, peerMin_eq_spec]⟩

end ClaimsWatermark

end Rollback

namespace Rollback

/-! ## History-store invariants, pruning and boundedness (C6, C7) -/

section HistoryInv

variable {σ : Type}

theorem mem_akeys_aset_self {α β : Type} [DecidableEq α] (m : List (α × β)) (k : α) (v : β) :
    k ∈ akeys (aset m k v) := by
  by_cases hm : k ∈ akeys m
  · rw [akeys_aset_mem m k v hm]; exact hm
  · rw [akeys_aset_not_mem m k v hm]; simp

theorem mem_akeys_aset_of_mem {α β : Type} [DecidableEq α] (m : List (α × β))
    (k k₂ : α) (v : β) (h : k₂ ∈ akeys m) : k₂ ∈ akeys (aset m k v) := by
  by_cases hm : k ∈ akeys m
  · rw [akeys_aset_mem m k v hm]; exact h
  · rw [akeys_aset_not_mem m k v hm]; simp [h]

/-- Key-set effects of the re-simulation loop: keys only grow by window
frames, every window frame acquires a snapshot, prior snapshot keys
survive, and key-nodupness is preserved. -/
theorem rollbackLoop_keys : ∀ (n : Nat) (s : Engine σ) (f0 : Nat),
    (∀ k, k ∈ akeys (rollbackLoop s f0 n).usedInputs →
      k ∈ akeys s.usedInputs ∨ (f0 ≤ k ∧ k < f0 + n)) ∧
    (∀ k, k ∈ akeys (rollbackLoop s f0 n).stateHistory →
      k ∈ akeys s.stateHistory ∨ (f0 ≤ k ∧ k < f0 + n)) ∧
    (∀ k, k ∈ akeys s.stateHistory → k ∈ akeys (rollbackLoop s f0 n).stateHistory) ∧
    (∀ k, f0 ≤ k → k < f0 + n → k ∈ akeys (rollbackLoop s f0 n).stateHistory) ∧
    ((akeys s.usedInputs).Nodup → (akeys (rollbackLoop s f0 n).usedInputs).Nodup) ∧
    ((akeys s.stateHistory).Nodup → (akeys (rollbackLoop s f0 n).stateHistory).Nodup) := by
  intro n
  induction n with
  | zero =>
    intro s f0
    exact ⟨fun k h => Or.inl h, fun k h => Or.inl h, fun k h => h,
      fun k h1 h2 => absurd (Nat.lt_of_le_of_lt h1 h2) (by omega), id, id⟩
  | succ n ih =>
    intro s f0
    simp only [rollbackLoop]
    obtain ⟨ihU, ihS, ihSup, ihWin, ihNU, ihNS⟩ := ih (rollbackIter s f0) (f0 + 1)
    have hiu : (rollbackIter s f0).usedInputs = aset s.usedInputs f0 (gatherInputs s f0) :=
      rollbackIter_usedInputs s f0
    have his : (rollbackIter s f0).stateHistory = aset s.stateHistory f0 s.emu :=
      rollbackIter_stateHistory s f0
    refine ⟨?_, ?_, ?_, ?_, ?_, ?_⟩
    · intro k h
      rcases ihU k h with h2 | h2
      · rw [hiu] at h2
        rcases mem_akeys_aset _ _ _ _ h2 with h3 | h3
        · exact Or.inl h3
        · exact Or.inr (by omega)
      · exact Or.inr (by omega)
    · intro k h
      rcases ihS k h with h2 | h2
      · rw [his] at h2
        rcases mem_akeys_aset _ _ _ _ h2 with h3 | h3
        · exact Or.inl h3
        · exact Or.inr (by omega)
      · exact Or.inr (by omega)
    · intro k h
      refine ihSup k ?_
      rw [his]
      exact mem_akeys_aset_of_mem _ _ _ _ h
    · intro k h1 h2
      rcases Nat.eq_or_lt_of_le h1 with heq | hlt
      · subst heq
        refine ihSup f0 ?_
        rw [his]
        exact mem_akeys_aset_self _ _ _
      · exact ihWin k hlt (by omega)
    · intro h
      refine ihNU ?_
      rw [hiu]
      exact nodup_akeys_aset _ _ _ h
    · intro h
      refine ihNS ?_
      rw [his]
      exact nodup_akeys_aset _ _ _ h

/-- Key-set effects of the full rollback phase of a tick: any new key is
below the current frame, old snapshots survive, the used-in-state inclusion
and nodupness are preserved. -/
theorem rollbackPhase_keys (s : Engine σ) :
    (∀ k, k ∈ akeys (rollbackPhase s).usedInputs →
      k ∈ akeys s.usedInputs ∨ k < s.frame) ∧
    (∀ k, k ∈ akeys (rollbackPhase s).stateHistory →
      k ∈ akeys s.stateHistory ∨ k < s.frame) ∧
    (∀ k, k ∈ akeys s.stateHistory → k ∈ akeys (rollbackPhase s).stateHistory) ∧
    ((akeys s.usedInputs).Nodup → (akeys (rollbackPhase s).usedInputs).Nodup) ∧
    ((akeys s.stateHistory).Nodup → (akeys (rollbackPhase s).stateHistory).Nodup) ∧
    ((∀ k, k ∈ akeys s.usedInputs → k ∈ akeys s.stateHistory) →
      ∀ k, k ∈ akeys (rollbackPhase s).usedInputs → k ∈ akeys (rollbackPhase s).stateHistory) := by
  unfold rollbackPhase
  cases hrb : s.rollbackTo with
  | none =>
    exact ⟨fun k h => Or.inl h, fun k h => Or.inl h, fun k h => h, id, id, fun h => h⟩
  | some t =>
    dsimp only
    split
    · next hcond =>
      unfold performRollback
      dsimp only
      obtain ⟨hU, hS, hSup, hWin, hNU, hNS⟩ :=
        rollbackLoop_keys (s.frame - t) { s with rollbackTo := none, emu := (aget s.stateHistory t).getD s.emu, log := s.log ++ [SimCall.load] } t
      refine ⟨?_, ?_, ?_, ?_, ?_, ?_⟩
      · intro k h
        rcases hU k h with h2 | h2
        · exact Or.inl h2
        · exact Or.inr (by omega)
      · intro k h
        rcases hS k h with h2 | h2
        · exact Or.inl h2
        · exact Or.inr (by omega)
      · intro k h
        exact hSup k h
      · intro h
        exact hNU h
      · intro h
        exact hNS h
      · intro hinc k h
        rcases hU k h with h2 | h2
        · exact hSup k (hinc k h2)
        · exact hWin k h2.1 h2.2
    · exact ⟨fun k h => Or.inl h, fun k h => Or.inl h, fun k h => h, id, id, fun h => h⟩

end HistoryInv

end Rollback

namespace Rollback

section PruneFacts

variable {σ : Type}

theorem pruneHistory_usedInputs (s : Engine σ) :
    (pruneHistory s).usedInputs =
      s.usedInputs.filter (fun e =>
        ¬ e.1 ∈ (s.stateHistory.filter (fun e2 => (e2.1 : Int) < keepFrom s)).map Prod.fst) := rfl

theorem pruneHistory_confirmedInputs (s : Engine σ) :
    (pruneHistory s).confirmedInputs =
      s.confirmedInputs.filter (fun e =>
        ¬ e.1 ∈ (s.stateHistory.filter (fun e2 => (e2.1 : Int) < keepFrom s)).map Prod.fst) := rfl

theorem mem_victims_iff (s : Engine σ) (k : Nat) :
    k ∈ (s.stateHistory.filter (fun e2 => (e2.1 : Int) < keepFrom s)).map Prod.fst ↔
      k ∈ akeys s.stateHistory ∧ (k : Int) < keepFrom s := by
  constructor
  · intro h
    obtain ⟨e, he, hk⟩ := List.mem_map.mp h
    have he2 := List.mem_filter.mp he
    subst hk
    refine ⟨List.mem_map.mpr ⟨e, he2.1, rfl⟩, ?_⟩
    simpa using he2.2
  · intro ⟨h1, h2⟩
    obtain ⟨e, he, hk⟩ := List.mem_map.mp h1
    refine List.mem_map.mpr ⟨e, List.mem_filter.mpr ⟨he, ?_⟩, hk⟩
    subst hk
    simpa using h2

theorem mem_akeys_filter {α β : Type} [DecidableEq α] (m : List (α × β))
    (p : α × β → Bool) (k : α) (hk : k ∈ akeys m)
    (hp : ∀ v, (k, v) ∈ m → p (k, v) = true) : k ∈ akeys (m.filter p) := by
  obtain ⟨e, he, hke⟩ := List.mem_map.mp hk
  refine List.mem_map.mpr ⟨e, List.mem_filter.mpr ⟨he, ?_⟩, hke⟩
  have : e = (k, e.2) := by rw [← hke]
  rw [this] at he ⊢
  exact hp e.2 he

/-- After pruning, no state snapshot survives below the threshold. -/
theorem pruneHistory_state_none (s : Engine σ) (f : Nat) (h : (f : Int) < keepFrom s) :
    aget (pruneHistory s).stateHistory f = none := by
  rw [pruneHistory_stateHistory]
  apply aget_filter_of_not_key
  intro v
  simp [h]

/-- After pruning, no used-input entry survives below the threshold,
provided used-input frames all have snapshots. -/
theorem pruneHistory_used_none (s : Engine σ) (f : Nat)
    (hinc : ∀ k, k ∈ akeys s.usedInputs → k ∈ akeys s.stateHistory)
    (h : (f : Int) < keepFrom s) :
    aget (pruneHistory s).usedInputs f = none := by
  by_cases hm : f ∈ akeys s.stateHistory
  · rw [pruneHistory_usedInputs]
    apply aget_filter_of_not_key
    intro v
    have hv : f ∈ (s.stateHistory.filter (fun e2 => (e2.1 : Int) < keepFrom s)).map Prod.fst :=
      (mem_victims_iff s f).mpr ⟨hm, h⟩
    simp [hv]
  · have hnm : f ∉ akeys s.usedInputs := fun hf => hm (hinc f hf)
    rw [aget_eq_none_iff]
    intro hf
    rw [pruneHistory_usedInputs] at hf
    exact hnm (akeys_filter_subset _ _ hf)

/-- Surviving snapshot keys sit at or above the threshold. -/
theorem pruneHistory_state_keys (s : Engine σ) (k : Nat)
    (h : k ∈ akeys (pruneHistory s).stateHistory) :
    k ∈ akeys s.stateHistory ∧ keepFrom s ≤ (k : Int) := by
  rw [pruneHistory_stateHistory] at h
  obtain ⟨e, he, hk⟩ := List.mem_map.mp h
  have he2 := List.mem_filter.mp he
  subst hk
  refine ⟨List.mem_map.mpr ⟨e, he2.1, rfl⟩, ?_⟩
  have := he2.2
  simp at this
  omega

/-- Surviving used-input keys sit at or above the threshold when their
frames all have snapshots. -/
theorem pruneHistory_used_keys (s : Engine σ) (k : Nat)
    (hinc : ∀ k2, k2 ∈ akeys s.usedInputs → k2 ∈ akeys s.stateHistory)
    (h : k ∈ akeys (pruneHistory s).usedInputs) :
    k ∈ akeys s.usedInputs ∧ keepFrom s ≤ (k : Int) := by
  rw [pruneHistory_usedInputs] at h
  obtain ⟨e, he, hk⟩ := List.mem_map.mp h
  have he2 := List.mem_filter.mp he
  subst hk
  refine ⟨List.mem_map.mpr ⟨e, he2.1, rfl⟩, ?_⟩
  by_contra hlt
  have hv : e.1 ∈ (s.stateHistory.filter (fun e2 => (e2.1 : Int) < keepFrom s)).map Prod.fst :=
    (mem_victims_iff s e.1).mpr
      ⟨hinc e.1 (List.mem_map.mpr ⟨e, he2.1, rfl⟩), by omega⟩
  have := he2.2
  simp [hv] at this

/-- Pruning keeps the used-in-state inclusion. -/
theorem pruneHistory_inc (s : Engine σ)
    (hinc : ∀ k, k ∈ akeys s.usedInputs → k ∈ akeys s.stateHistory) :
    ∀ k, k ∈ akeys (pruneHistory s).usedInputs → k ∈ akeys (pruneHistory s).stateHistory := by
  intro k h
  obtain ⟨hku, hge⟩ := pruneHistory_used_keys s k hinc h
  rw [pruneHistory_stateHistory]
  refine mem_akeys_filter _ _ k (hinc k hku) (fun v _ => ?_)
  simp
  omega

theorem nodup_len_le (m : List (Nat × σ)) (lo n : Nat)
    (hn : (akeys m).Nodup) (hsub : ∀ k, k ∈ akeys m → lo ≤ k ∧ k < lo + n) :
    m.length ≤ n := by
  have hlen : m.length = (akeys m).length := by simp [akeys]
  rw [hlen]
  have hsub2 : akeys m ⊆ List.range' lo n := by
    intro k hk
    rw [List.mem_range'_1]
    exact hsub k hk
  have := List.Subperm.length_le (List.subperm_of_subset hn hsub2)
  simpa using this

end PruneFacts

end Rollback

namespace Rollback

section TickHist

variable {σ : Type}

/-- The tick in terms of its phases, with the prune input named. -/
theorem tick_eq_phases (s : Engine σ) (li : Nat) :
    tick s li = advanceFrame (statsPublish (pruneHistory (updateConfirmedFrame (tickStep s li)))) := rfl

/-- History-store facts established by one tick from a state satisfying
`HistInv`: the invariant is preserved, every surviving entry of the two
simulation-history stores lies in the window
`[max(0, watermark − 1), current-frame)`, and every frame below the
threshold has no entry. -/
theorem tick_hist_post (s : Engine σ) (li : Nat) (hinv : HistInv s) :
    HistInv (tick s li) ∧
    (∀ k, k ∈ akeys (tick s li).stateHistory →
      max 0 ((tick s li).confirmedFrame - 1) ≤ (k : Int) ∧ k < (tick s li).frame) ∧
    (∀ k, k ∈ akeys (tick s li).usedInputs →
      max 0 ((tick s li).confirmedFrame - 1) ≤ (k : Int) ∧ k < (tick s li).frame) ∧
    (∀ f : Nat, (f : Int) < max 0 ((tick s li).confirmedFrame - 1) →
      aget (tick s li).stateHistory f = none ∧ aget (tick s li).usedInputs f = none) := by
  obtain ⟨hIncS, hLtS, hNU, hNS⟩ := hinv
  obtain ⟨rbU, rbS, rbSup, rbNU, rbNS, rbInc⟩ :=
    rollbackPhase_keys (storeInput s (s.frame + INPUT_DELAY) s.localPlayerId li)
  set s2 : Engine σ := rollbackPhase (storeInput s (s.frame + INPUT_DELAY) s.localPlayerId li) with hs2
  have hfr2 : s2.frame = s.frame := by rw [hs2]; simp
  -- pre-prune stores
  set s4 : Engine σ := updateConfirmedFrame (tickStep s li) with hs4
  have h4used : s4.usedInputs = aset s2.usedInputs s2.frame (gatherInputs (snapshotPhase s2) s2.frame) := by
    rw [hs4]
    unfold tickStep
    simp only [updateConfirmedFrame_usedInputs, simPhase_usedInputs, snapshotPhase_usedInputs,
      snapshotPhase_frame, hs2]
  have h4state : s4.stateHistory = aset s2.stateHistory s2.frame s2.emu := by
    rw [hs4]
    unfold tickStep
    simp only [updateConfirmedFrame_stateHistory, simPhase_stateHistory,
      snapshotPhase_stateHistory, hs2]
  -- tick projections
  have htickState : (tick s li).stateHistory = (pruneHistory s4).stateHistory := by
    rw [tick_eq_phases, hs4]; simp
  have htickUsed : (tick s li).usedInputs = (pruneHistory s4).usedInputs := by
    rw [tick_eq_phases, hs4]; simp
  have htickCf : (tick s li).confirmedFrame = s4.confirmedFrame := by
    rw [tick_eq_phases, hs4]; simp
  have htickFrame : (tick s li).frame = s.frame + 1 := tick_frame s li
  have hkf : keepFrom s4 = max 0 ((tick s li).confirmedFrame - 1) := by
    rw [htickCf]; rfl
  -- pre-prune key facts
  have hIncS4 : ∀ k, k ∈ akeys s4.usedInputs → k ∈ akeys s4.stateHistory := by
    intro k h
    rw [h4used] at h
    rw [h4state]
    rcases mem_akeys_aset _ _ _ _ h with h2 | h2
    · exact mem_akeys_aset_of_mem _ _ _ _
        (rbInc (fun k2 hk2 => by simpa using hIncS k2 (by simpa using hk2)) k h2)
    · rw [h2]
      exact mem_akeys_aset_self _ _ _
  have hLtS4 : ∀ k, k ∈ akeys s4.stateHistory → k < s.frame + 1 := by
    intro k h
    rw [h4state] at h
    rcases mem_akeys_aset _ _ _ _ h with h2 | h2
    · rcases rbS k h2 with h3 | h3
      · have := hLtS k (by simpa using h3)
        omega
      · simp at h3
        omega
    · omega
  have hNU4 : (akeys s4.usedInputs).Nodup := by
    rw [h4used]
    exact nodup_akeys_aset _ _ _ (rbNU (by simpa using hNU))
  have hNS4 : (akeys s4.stateHistory).Nodup := by
    rw [h4state]
    exact nodup_akeys_aset _ _ _ (rbNS (by simpa using hNS))
  refine ⟨⟨?_, ?_, ?_, ?_⟩, ?_, ?_, ?_⟩
  · intro k h
    rw [htickUsed] at h
    rw [htickState]
    exact pruneHistory_inc s4 hIncS4 k h
  · intro k h
    rw [htickState] at h
    rw [htickFrame]
    exact Nat.lt_of_lt_of_le (hLtS4 k (pruneHistory_state_keys s4 k h).1) (le_refl _)
  · rw [htickUsed, pruneHistory_usedInputs]
    exact nodup_akeys_filter _ _ hNU4
  · rw [htickState, pruneHistory_stateHistory]
    exact nodup_akeys_filter _ _ hNS4
  · intro k h
    rw [htickState] at h
    obtain ⟨hmem, hge⟩ := pruneHistory_state_keys s4 k h
    rw [← hkf, htickFrame]
    exact ⟨hge, hLtS4 k hmem⟩
  · intro k h
    rw [htickUsed] at h
    obtain ⟨hmem, hge⟩ := pruneHistory_used_keys s4 k hIncS4 h
    rw [← hkf, htickFrame]
    exact ⟨hge, Nat.lt_of_lt_of_le (hLtS4 k (hIncS4 k hmem)) (le_refl _)⟩
  · intro f hf
    rw [← hkf] at hf
    rw [htickState, htickUsed]
    exact ⟨pruneHistory_state_none s4 f hf, pruneHistory_used_none s4 f hIncS4 hf⟩

/-- `HistInv` holds initially and is preserved by every operation. -/
theorem histInv_applyOps (l : String) (ps : List String)
    (st : σ → List (String × Nat) → σ) (e0 : σ) (ops : List Op) :
    HistInv (applyOps (mkEngine l ps st e0) ops) := by
  refine applyOps_induction HistInv ?_ ?_ ops _ ?_
  · intro s li h
    exact (tick_hist_post s li h).1
  · intro s f p v ⟨h1, h2, h3, h4⟩
    refine ⟨?_, ?_, ?_, ?_⟩ <;> simp only [receiveRemoteInput_usedInputs,
      receiveRemoteInput_stateHistory, receiveRemoteInput_frame]
    · exact h1
    · exact h2
    · exact h3
    · exact h4
  · exact ⟨fun k h => by simp [mkEngine, akeys] at h, fun k h => by simp [mkEngine, akeys] at h,
      by simp [mkEngine, akeys], by simp [mkEngine, akeys]⟩

end TickHist

end Rollback

namespace Rollback

section ClaimsHistory

variable {σ : Type}

/-- C7 counterexample: a remote input for already-pruned frame 0 recreates
a confirmed-inputs entry there, and the next tick's pruning (threshold
max(0, 3−1) = 2) does not remove it, because pruning only scans
state-history keys: immediately after pruning, frame 0 < 2 still has a
confirmed-inputs entry. -/
theorem claim_C7_cex :
    (aget (applyOps e2 [Op.tick 1, Op.recv 3 "R" 0, Op.tick 1, Op.recv 0 "R" 5, Op.tick 1]).confirmedInputs 0).isSome = true ∧
    (0 : Int) < max 0 ((applyOps e2 [Op.tick 1, Op.recv 3 "R" 0, Op.tick 1, Op.recv 0 "R" 5, Op.tick 1]).confirmedFrame - 1) := by
  decide

/-- C7 (amended): immediately after the pruning of any tick (from any
reachable state), no frame below `max(0, confirmed-frame-watermark − 1)`
retains a state-history or used-inputs entry, regardless of the order in
which earlier remote inputs arrived; confirmed-inputs entries below the
threshold, however, can survive when they were recreated by an arrival for
a frame whose snapshot had already been pruned (pruning scans only
state-history keys). -/
theorem claim_C7_prune_state_used (l : String) (ps : List String)
    (st : σ → List (String × Nat) → σ) (e0 : σ) (ops : List Op) (li f : Nat)
    (h : (f : Int) < max 0 ((tick (applyOps (mkEngine l ps st e0) ops) li).confirmedFrame - 1)) :
    aget (tick (applyOps (mkEngine l ps st e0) ops) li).stateHistory f = none ∧
    aget (tick (applyOps (mkEngine l ps st e0) ops) li).usedInputs f = none :=
  (tick_hist_post _ li (histInv_applyOps l ps st e0 ops)).2.2.2 f h

/-- C7 witness: after the trace [tick, receive frame 3] the watermark is 3,
so the tick's pruning threshold is 2 and frame 0 retains no snapshot. -/
theorem claim_C7_prune_state_used_witness :
    ((0 : Int) < max 0 ((tick (applyOps e2 [Op.tick 1, Op.recv 3 "R" 0]) 1).confirmedFrame - 1)) ∧
    aget (tick (applyOps e2 [Op.tick 1, Op.recv 3 "R" 0]) 1).stateHistory 0 = none :=
  ⟨by decide,
   (claim_C7_prune_state_used "L" ["L", "R"] (fun st _ => st + 1) 0
     [Op.tick 1, Op.recv 3 "R" 0] 1 0 (by decide)).1⟩

/-- C6 counterexample: when the remote peer sends nothing, the watermark
stays at −1, pruning removes nothing, and after 13 ticks each history store
holds 13 > MAX_ROLLBACK + INPUT_DELAY + 2 = 12 entries. -/
theorem claim_C6_cex :
    (applyOps e2 (List.replicate 13 (Op.tick 0))).stateHistory.length = 13 ∧
    (applyOps e2 (List.replicate 13 (Op.tick 0))).usedInputs.length = 13 ∧
    (applyOps e2 (List.replicate 13 (Op.tick 0))).confirmedInputs.length = 13 ∧
    MAX_ROLLBACK + INPUT_DELAY + 2 < 13 := by
  decide

/-- C6 (amended): at the end of every tick, the state-history and
used-inputs stores hold entries only for distinct frames in the window
`[max(0, watermark − 1), current-frame)`, hence at most
`current-frame − max(0, watermark − 1)` entries each.  No constant bound
(such as `max-rollback + input-delay + 2`) holds, because the engine keeps
ticking when a peer falls silent, and confirmed-inputs can additionally
retain stale re-arrivals (see C7). -/
theorem claim_C6_history_window (l : String) (ps : List String)
    (st : σ → List (String × Nat) → σ) (e0 : σ) (ops : List Op) (li : Nat) :
    (∀ k, k ∈ akeys (tick (applyOps (mkEngine l ps st e0) ops) li).stateHistory →
      max 0 ((tick (applyOps (mkEngine l ps st e0) ops) li).confirmedFrame - 1) ≤ (k : Int) ∧
        k < (tick (applyOps (mkEngine l ps st e0) ops) li).frame) ∧
    (∀ k, k ∈ akeys (tick (applyOps (mkEngine l ps st e0) ops) li).usedInputs →
      max 0 ((tick (applyOps (mkEngine l ps st e0) ops) li).confirmedFrame - 1) ≤ (k : Int) ∧
        k < (tick (applyOps (mkEngine l ps st e0) ops) li).frame) ∧
    (tick (applyOps (mkEngine l ps st e0) ops) li).stateHistory.length ≤
      (tick (applyOps (mkEngine l ps st e0) ops) li).frame -
        (max 0 ((tick (applyOps (mkEngine l ps st e0) ops) li).confirmedFrame - 1)).toNat ∧
    (tick (applyOps (mkEngine l ps st e0) ops) li).usedInputs.length ≤
      (tick (applyOps (mkEngine l ps st e0) ops) li).frame -
        (max 0 ((tick (applyOps (mkEngine l ps st e0) ops) li).confirmedFrame - 1)).toNat := by
  obtain ⟨hinv, hS, hU, _⟩ :=
    tick_hist_post (applyOps (mkEngine l ps st e0) ops) li (histInv_applyOps l ps st e0 ops)
  obtain ⟨_, _, hNU, hNS⟩ := hinv
  refine ⟨hS, hU, ?_, ?_⟩
  · refine nodup_len_le _
      ((max 0 ((tick (applyOps (mkEngine l ps st e0) ops) li).confirmedFrame - 1)).toNat)
      _ hNS ?_
    intro k hk
    have := hS k hk
    omega
  · refine nodup_len_le _
      ((max 0 ((tick (applyOps (mkEngine l ps st e0) ops) li).confirmedFrame - 1)).toNat)
      _ hNU ?_
    intro k hk
    have := hU k hk
    omega

/-- C6 witness: the window bound evaluated on a concrete trace. -/
theorem claim_C6_history_window_witness :
    (tick (applyOps e2 [Op.tick 1, Op.recv 3 "R" 0]) 1).stateHistory.length ≤
      (tick (applyOps e2 [Op.tick 1, Op.recv 3 "R" 0]) 1).frame -
        (max 0 ((tick (applyOps e2 [Op.tick 1, Op.recv 3 "R" 0]) 1).confirmedFrame - 1)).toNat :=
  (claim_C6_history_window "L" ["L", "R"] (fun st _ => st + 1) 0
    [Op.tick 1, Op.recv 3 "R" 0] 1).2.2.1

end ClaimsHistory

end Rollback

namespace Rollback

/-! ## Prediction correctness (C3) -/

section RosterFacts

variable {σ : Type}

theorem aget_mem {α β : Type} [DecidableEq α] (m : List (α × β)) (k : α) (v : β)
    (h : aget m k = some v) : (k, v) ∈ m := by
  induction m with
  | nil => simp [aget] at h
  | cons e rest ih =>
    by_cases hk : k = e.1
    · rw [aget, if_pos hk] at h
      have hv : v = e.2 := (Option.some_inj.mp h).symm
      rw [hk, hv]
      exact List.mem_cons_self _ _
    · rw [aget, if_neg hk] at h
      exact List.mem_cons_of_mem _ (ih h)

theorem mem_aset {α β : Type} [DecidableEq α] (m : List (α × β)) (k : α) (v : β)
    (e : α × β) (h : e ∈ aset m k v) : e ∈ m ∨ e = (k, v) := by
  induction m with
  | nil =>
    simp [aset] at h
    exact Or.inr h
  | cons e0 rest ih =>
    by_cases hk : k = e0.1
    · rw [aset, if_pos hk] at h
      rcases List.mem_cons.mp h with h2 | h2
      · subst h2
        exact Or.inr (by rw [hk])
      · exact Or.inl (List.mem_cons_of_mem _ h2)
    · rw [aset, if_neg hk] at h
      rcases List.mem_cons.mp h with h2 | h2
      · exact Or.inl (List.mem_cons.mpr (Or.inl h2))
      · rcases ih h2 with h3 | h3
        · exact Or.inl (List.mem_cons_of_mem _ h3)
        · exact Or.inr h3

theorem aget_of_mem_nodup {α β : Type} [DecidableEq α] (m : List (α × β))
    (hn : (akeys m).Nodup) (e : α × β) (h : e ∈ m) : aget m e.1 = some e.2 := by
  induction m with
  | nil => simp at h
  | cons e0 rest ih =>
    rw [akeys] at hn
    simp only [List.map_cons, List.nodup_cons] at hn
    rcases List.mem_cons.mp h with h2 | h2
    · subst h2
      simp [aget]
    · have hne : e.1 ≠ e0.1 := by
        intro heq
        exact hn.1 (heq ▸ List.mem_map.mpr ⟨e, h2, rfl⟩)
      rw [aget, if_neg hne]
      exact ih hn.2 h2

theorem aget_filter_isSome {α β : Type} [DecidableEq α] (m : List (α × β))
    (p : α × β → Bool) (k : α) (h : (aget (m.filter p) k).isSome) :
    (aget m k).isSome := by
  rw [aget_isSome_iff] at h ⊢
  exact akeys_filter_subset _ _ h

theorem foldl_min_ge (l : List (String × Int)) (a c : Int) (ha : c ≤ a)
    (h : ∀ e, e ∈ l → c ≤ e.2) :
    c ≤ l.foldl (fun acc e => min acc e.2) a := by
  induction l generalizing a with
  | nil => exact ha
  | cons e rest ih =>
    exact ih (min a e.2) (le_min ha (h e (List.mem_cons_self e rest)))
      (fun e2 he2 => h e2 (List.mem_cons_of_mem _ he2))

end RosterFacts

end Rollback

namespace Rollback

section RosterPreserve

variable {σ : Type}

@[simp] theorem tickStep_lastReceivedFrame (s : Engine σ) (li : Nat) :
    (tickStep s li).lastReceivedFrame = s.lastReceivedFrame := by
  unfold tickStep; simp

@[simp] theorem tickStep_playerIds (s : Engine σ) (li : Nat) :
    (tickStep s li).playerIds = s.playerIds := by
  unfold tickStep; simp

@[simp] theorem tickStep_localPlayerId (s : Engine σ) (li : Nat) :
    (tickStep s li).localPlayerId = s.localPlayerId := by
  unfold tickStep; simp

@[simp] theorem tick_lastReceivedFrame (s : Engine σ) (li : Nat) :
    (tick s li).lastReceivedFrame = s.lastReceivedFrame := by
  rw [tick_eq_phases]; simp

@[simp] theorem tick_playerIds (s : Engine σ) (li : Nat) :
    (tick s li).playerIds = s.playerIds := by
  rw [tick_eq_phases]; simp

@[simp] theorem tick_localPlayerId (s : Engine σ) (li : Nat) :
    (tick s li).localPlayerId = s.localPlayerId := by
  rw [tick_eq_phases]; simp

/-- The confirmed inputs of a tick's result are a prune-filter of the
confirmed inputs after queueing the delayed local input. -/
theorem tick_confirmedInputs_sub (s : Engine σ) (li : Nat) (e : Nat × List (String × Nat))
    (h : e ∈ (tick s li).confirmedInputs) :
    e ∈ (storeInput s (s.frame + INPUT_DELAY) s.localPlayerId li).confirmedInputs := by
  rw [tick_eq_phases] at h
  simp only [advanceFrame_confirmedInputs, statsPublish_confirmedInputs] at h
  rw [pruneHistory_confirmedInputs] at h
  have h2 := List.mem_of_mem_filter h
  simp only [updateConfirmedFrame_confirmedInputs] at h2
  unfold tickStep at h2
  simp only [simPhase_confirmedInputs, snapshotPhase_confirmedInputs,
    rollbackPhase_confirmedInputs] at h2
  exact h2

theorem recv_confirmedInputs (s : Engine σ) (f : Nat) (p : String) (v : Nat)
    (hp : p ≠ s.localPlayerId) :
    (receiveRemoteInput s f p v).confirmedInputs =
      aset s.confirmedInputs f (aset ((aget s.confirmedInputs f).getD []) p v) := by
  unfold receiveRemoteInput
  rw [if_neg hp]
  simp only [updateConfirmedFrame_confirmedInputs, recvWatermark_confirmedInputs,
    storeInput_confirmedInputs, recvMispredict_confirmedInputs]

theorem recv_lastReceivedFrame (s : Engine σ) (f : Nat) (p : String) (v : Nat)
    (hp : p ≠ s.localPlayerId) :
    (receiveRemoteInput s f p v).lastReceivedFrame =
      (if (f : Int) > (aget s.lastReceivedFrame p).getD (-1) then
        aset s.lastReceivedFrame p (f : Int)
      else s.lastReceivedFrame) := by
  unfold receiveRemoteInput recvWatermark
  rw [if_neg hp]
  simp only [updateConfirmedFrame_lastReceivedFrame, storeInput_lastReceivedFrame,
    recvMispredict_lastReceivedFrame]
  split <;> simp

/-- `RosterInv` holds on a freshly constructed engine with a duplicate-free
roster. -/
theorem rosterInv_mk (l : String) (ps : List String)
    (st : σ → List (String × Nat) → σ) (e0 : σ) (hnodup : ps.Nodup) :
    RosterInv (mkEngine l ps st e0) := by
  refine ⟨?_, ?_, ?_⟩
  · intro e he
    simp [mkEngine] at he
  · intro e he
    simp only [mkEngine] at he
    obtain ⟨pid, hmem, hpe⟩ := List.mem_map.mp he
    have := List.mem_filter.mp hmem
    rw [← hpe]
    refine ⟨this.1, by simpa using this.2⟩
  · simp only [mkEngine, akeys, List.map_map]
    have : (Prod.fst ∘ fun pid => (pid, (-1 : Int))) = fun pid : String => pid := rfl
    rw [this]
    simpa using hnodup.filter _

/-- `RosterInv` is preserved by a tick. -/
theorem rosterInv_tick (s : Engine σ) (li : Nat) (h : RosterInv s) :
    RosterInv (tick s li) := by
  obtain ⟨hD, hE, hG⟩ := h
  refine ⟨?_, ?_, ?_⟩
  · intro e he p2 hp2 hp2loc
    rw [tick_localPlayerId] at hp2loc
    rw [tick_lastReceivedFrame]
    have he2 := tick_confirmedInputs_sub s li e he
    rw [storeInput_confirmedInputs] at he2
    rcases mem_aset _ _ _ _ he2 with h3 | h3
    · exact hD e h3 p2 hp2 hp2loc
    · subst h3
      rcases mem_akeys_aset _ _ _ _ hp2 with h4 | h4
      · cases hin : aget s.confirmedInputs (s.frame + INPUT_DELAY) with
        | none => rw [hin] at h4; simp [akeys] at h4
        | some inner =>
          rw [hin] at h4
          exact hD _ (aget_mem _ _ _ hin) p2 h4 hp2loc
      · rw [h4] at hp2loc
        exact absurd rfl hp2loc
  · intro e he
    rw [tick_lastReceivedFrame] at he
    rw [tick_playerIds, tick_localPlayerId]
    exact hE e he
  · rw [tick_lastReceivedFrame]
    exact hG

/-- `RosterInv` is preserved by a roster-respecting remote-input delivery. -/
theorem rosterInv_recv (s : Engine σ) (f : Nat) (p : String) (v : Nat)
    (hmem : p ∈ s.playerIds) (h : RosterInv s) :
    RosterInv (receiveRemoteInput s f p v) := by
  obtain ⟨hD, hE, hG⟩ := h
  by_cases hp : p = s.localPlayerId
  · unfold receiveRemoteInput
    rw [if_pos hp]
    exact ⟨hD, hE, hG⟩
  · have hlift : ∀ (f2 : Nat) (p2 : String),
        (∃ w, aget s.lastReceivedFrame p2 = some w ∧ (f2 : Int) ≤ w) →
        ∃ w, aget (receiveRemoteInput s f p v).lastReceivedFrame p2 = some w ∧
          (f2 : Int) ≤ w := by
      intro f2 p2 ⟨w, hw, hle⟩
      rw [recv_lastReceivedFrame s f p v hp]
      split
      · next hgt =>
        by_cases hpp : p2 = p
        · subst hpp
          rw [hw] at hgt
          simp only [Option.getD_some] at hgt
          exact ⟨f, aget_aset_self _ _ _, by omega⟩
        · exact ⟨w, by rw [aget_aset_ne _ _ _ _ hpp]; exact hw, hle⟩
      · exact ⟨w, hw, hle⟩
    refine ⟨?_, ?_, ?_⟩
    · intro e he p2 hp2 hp2loc
      rw [receiveRemoteInput_localPlayerId] at hp2loc
      rw [recv_confirmedInputs s f p v hp] at he
      rcases mem_aset _ _ _ _ he with h3 | h3
      · exact hlift e.1 p2 (hD e h3 p2 hp2 hp2loc)
      · subst h3
        rcases mem_akeys_aset _ _ _ _ hp2 with h4 | h4
        · cases hin : aget s.confirmedInputs f with
          | none => rw [hin] at h4; simp [akeys] at h4
          | some inner =>
            rw [hin] at h4
            exact hlift f p2 (hD _ (aget_mem _ _ _ hin) p2 h4 hp2loc)
        · subst h4
          rw [recv_lastReceivedFrame s f p2 v hp]
          split
          · next hgt => exact ⟨f, aget_aset_self _ _ _, le_refl _⟩
          · next hgt =>
            cases hw : aget s.lastReceivedFrame p2 with
            | none =>
              rw [hw] at hgt
              simp only [Option.getD_none] at hgt
              exact absurd (by omega : (f : Int) > -1) hgt
            | some w =>
              rw [hw] at hgt
              simp only [Option.getD_some] at hgt
              exact ⟨w, rfl, by omega⟩
    · intro e he
      rw [recv_lastReceivedFrame s f p v hp] at he
      rw [receiveRemoteInput_playerIds, receiveRemoteInput_localPlayerId]
      revert he
      split
      · intro he
        rcases mem_aset _ _ _ _ he with h3 | h3
        · exact hE e h3
        · rw [h3]
          exact ⟨hmem, hp⟩
      · intro he
        exact hE e he
    · rw [recv_lastReceivedFrame s f p v hp]
      split
      · exact nodup_akeys_aset _ _ _ hG
      · exact hG

end RosterPreserve

end Rollback

namespace Rollback

section C3Assembly

variable {σ : Type}

theorem applyOps_playerIds (ops : List Op) (s : Engine σ) :
    (applyOps s ops).playerIds = s.playerIds := by
  induction ops generalizing s with
  | nil => rfl
  | cons op rest ih =>
    show (applyOps (applyOp s op) rest).playerIds = s.playerIds
    rw [ih]
    cases op with
    | tick li => simp [applyOp]
    | recv f p v => simp [applyOp]

/-- `RosterInv` holds at every state reached by a roster-respecting
operation sequence. -/
theorem rosterInv_applyOps (ops : List Op) (ps : List String) (s : Engine σ)
    (hps : s.playerIds = ps) (hops : RosterOps ps ops) (h : RosterInv s) :
    RosterInv (applyOps s ops) := by
  induction ops generalizing s with
  | nil => exact h
  | cons op rest ih =>
    cases op with
    | tick li =>
      show RosterInv (applyOps (tick s li) rest)
      exact ih (tick s li) (by rw [tick_playerIds, hps]) hops (rosterInv_tick s li h)
    | recv f p v =>
      show RosterInv (applyOps (receiveRemoteInput s f p v) rest)
      have hops2 : p ∈ ps ∧ RosterOps ps rest := hops
      exact ih _ (by rw [receiveRemoteInput_playerIds, hps]) hops2.2
        (rosterInv_recv s f p v (by rw [hps]; exact hops2.1) h)

/-- When every roster player's input for the current frame is confirmed,
the tick raises the watermark to at least that frame. -/
theorem tick_cf_ge_frame (s : Engine σ) (li : Nat) (hinv : RosterInv s)
    (hall : ∀ pid, pid ∈ s.playerIds → pid ≠ s.localPlayerId →
      (aget2 s.confirmedInputs s.frame pid).isSome) :
    (s.frame : Int) ≤ (tick s li).confirmedFrame := by
  rw [tick_confirmedFrame]
  refine le_trans ?_ (le_max_right _ _)
  unfold peerMin
  rw [tickStep_lastReceivedFrame, tickStep_frame]
  have hd : (0 : Int) ≤ (INPUT_DELAY : Int) := by decide
  refine foldl_min_ge _ _ _ (by omega) ?_
  intro e he
  obtain ⟨hD, hE, hG⟩ := hinv
  obtain ⟨hmem, hne⟩ := hE e he
  have hsome := hall e.1 hmem hne
  cases hin : aget s.confirmedInputs s.frame with
  | none =>
    rw [show aget2 s.confirmedInputs s.frame e.1 = none from by unfold aget2; rw [hin]] at hsome
    simp at hsome
  | some inner =>
    rw [show aget2 s.confirmedInputs s.frame e.1 = aget inner e.1 from by
      unfold aget2; rw [hin]] at hsome
    have hp2 : e.1 ∈ akeys inner := (aget_isSome_iff inner e.1).mp hsome
    obtain ⟨w, hw, hle⟩ := hD (s.frame, inner) (aget_mem _ _ _ hin) e.1 hp2 hne
    have hagete := aget_of_mem_nodup s.lastReceivedFrame hG e he
    rw [hagete] at hw
    have hwe : w = e.2 := (Option.some_inj.mp hw).symm
    rw [hwe] at hle
    exact hle

/-- If the arriving frame is at or below the watermark, the misprediction
branch never touches the pending rollback target. -/
theorem recvMispredict_rollbackTo_of_cf_ge (s : Engine σ) (f : Nat) (p : String) (v : Nat)
    (h : ¬ ((f : Int) > s.confirmedFrame)) :
    (recvMispredict s f p v).rollbackTo = s.rollbackTo := by
  unfold recvMispredict
  split
  · cases hused : aget s.usedInputs f with
    | none => rfl
    | some used =>
      dsimp only
      rw [if_neg (fun hc => h hc.2)]
  · rfl

/-- A remote input for a frame at or below the watermark leaves the pending
rollback target unchanged. -/
theorem recv_rollbackTo_of_cf_ge (s : Engine σ) (f : Nat) (p : String) (v : Nat)
    (h : (f : Int) ≤ s.confirmedFrame) :
    (receiveRemoteInput s f p v).rollbackTo = s.rollbackTo := by
  unfold receiveRemoteInput
  split
  · rfl
  · simp only [updateConfirmedFrame_rollbackTo, recvWatermark_rollbackTo,
      storeInput_rollbackTo]
    exact recvMispredict_rollbackTo_of_cf_ge s f p v (by omega)

theorem gatherInputs_all_present (s : Engine σ) (f : Nat) (vals : String → Nat)
    (hall : ∀ pid, pid ∈ s.playerIds → aget2 s.confirmedInputs f pid = some (vals pid)) :
    gatherInputs s f = s.playerIds.map (fun p => (p, vals p)) := by
  unfold gatherInputs
  refine List.map_congr_left (fun p hp => ?_)
  rw [hall p hp]

/-- When every player's input for the current frame is already confirmed,
phase ④ of the tick records exactly the confirmed input map. -/
theorem tickStep_used_full (s : Engine σ) (li : Nat) (vals : String → Nat)
    (hall : ∀ pid, pid ∈ s.playerIds → aget2 s.confirmedInputs s.frame pid = some (vals pid)) :
    aget (tickStep s li).usedInputs s.frame =
      some (s.playerIds.map (fun p => (p, vals p))) := by
  unfold tickStep
  rw [simPhase_usedInputs]
  have hf : (snapshotPhase (rollbackPhase
      (storeInput s (s.frame + INPUT_DELAY) s.localPlayerId li))).frame = s.frame := by simp
  rw [hf, aget_aset_self]
  congr 1
  have e1 : gatherInputs (snapshotPhase (rollbackPhase
        (storeInput s (s.frame + INPUT_DELAY) s.localPlayerId li))) s.frame =
      gatherInputs (storeInput s (s.frame + INPUT_DELAY) s.localPlayerId li) s.frame :=
    gatherInputs_congr _ _ _ (by simp) (by simp)
  have e2 : gatherInputs (storeInput s (s.frame + INPUT_DELAY) s.localPlayerId li) s.frame =
      gatherInputs s s.frame :=
    gatherInputs_storeInput_lt s _ _ _ s.frame (by
      have hd : 0 < INPUT_DELAY := by decide
      omega)
  rw [e1, e2]
  exact gatherInputs_all_present s s.frame vals hall

end C3Assembly

end Rollback

namespace Rollback

section ClaimC3

variable {σ : Type}

/-- C3: start from a fresh engine with a duplicate-free roster and run any
roster-respecting operation sequence; if for the current frame `f` every
player's input is present in confirmed-inputs before the tick that steps
`f`, then the input map recorded in used-inputs[f] by that tick equals
confirmed-inputs[f] entry-for-entry over the fixed player set, and no later
`receive_remote_input` for frame `f` — in particular one delivering those
same values — changes the pending rollback target (the watermark has
reached `f` and never decreases, so the scheduling guard can never fire for
`f` again). -/
theorem claim_C3_prediction_correctness (l : String) (ps : List String)
    (st : σ → List (String × Nat) → σ) (e0 : σ) (ops1 ops2 : List Op)
    (li : Nat) (vals : String → Nat)
    (hnodup : ps.Nodup)
    (hops1 : RosterOps ps ops1)
    (hops2 : RosterOps ps ops2)
    (hall : ∀ pid, pid ∈ ps →
      aget2 (applyOps (mkEngine l ps st e0) ops1).confirmedInputs
        (applyOps (mkEngine l ps st e0) ops1).frame pid = some (vals pid)) :
    aget (tickStep (applyOps (mkEngine l ps st e0) ops1) li).usedInputs
        (applyOps (mkEngine l ps st e0) ops1).frame =
      some (ps.map (fun p => (p, vals p))) ∧
    (∀ (p : String) (v : Nat),
      (receiveRemoteInput
          (applyOps (tick (applyOps (mkEngine l ps st e0) ops1) li) ops2)
          (applyOps (mkEngine l ps st e0) ops1).frame p v).rollbackTo =
        (applyOps (tick (applyOps (mkEngine l ps st e0) ops1) li) ops2).rollbackTo) := by
  set s : Engine σ := applyOps (mkEngine l ps st e0) ops1 with hs
  have hps : s.playerIds = ps := by rw [hs, applyOps_playerIds]; rfl
  have hinv : RosterInv s :=
    rosterInv_applyOps ops1 ps _ rfl hops1 (rosterInv_mk l ps st e0 hnodup)
  constructor
  · rw [tickStep_used_full s li vals (fun pid hpid => hall pid (by rw [← hps]; exact hpid)),
      hps]
  · intro p v
    have h1 : (s.frame : Int) ≤ (tick s li).confirmedFrame :=
      tick_cf_ge_frame s li hinv (fun pid hm hne => by
        rw [hall pid (by rw [← hps]; exact hm)]
        rfl)
    have h2 : (tick s li).confirmedFrame ≤
        (applyOps (tick s li) ops2).confirmedFrame :=
      confirmedFrame_mono_applyOps ops2 _
    refine recv_rollbackTo_of_cf_ge _ s.frame p v ?_
    rw [show (applyOps (tick s li) ops2).confirmedFrame =
      (applyOps (tick s li) ops2).confirmedFrame from rfl]
    omega

/-- C3 witness: in `eFull` both players' inputs for frame 2 are confirmed
before the tick that steps frame 2; the tick records them as the used
inputs, and a later redelivery of R's value 7 leaves the pending target
unchanged. -/
theorem claim_C3_prediction_correctness_witness :
    aget (tickStep eFull 5).usedInputs eFull.frame =
      some ((["L", "R"] : List String).map (fun p => (p, eFullVals p))) ∧
    (receiveRemoteInput (applyOps (tick eFull 5) []) eFull.frame "R" 7).rollbackTo =
      (applyOps (tick eFull 5) []).rollbackTo :=
  ⟨(claim_C3_prediction_correctness "L" ["L", "R"] (fun st _ => st + 1) 0
      [Op.tick 3, Op.tick 4, Op.recv 2 "R" 7] [] 5 eFullVals
      (by decide) (by exact ⟨by decide, trivial⟩) trivial (by decide)).1,
   (claim_C3_prediction_correctness "L" ["L", "R"] (fun st _ => st + 1) 0
      [Op.tick 3, Op.tick 4, Op.recv 2 "R" 7] [] 5 eFullVals
      (by decide) (by exact ⟨by decide, trivial⟩) trivial (by decide)).2 "R" 7⟩

end ClaimC3

end Rollback
